import Mathlib

deriving instance DecidableEq for Except
unseal Rat.mul Rat.add Rat.inv Rat.sub

/-!
Verification development for the `parse_logs` log-statistics program.

The program (src/parse_logs.py) crawls a directory tree for files named
`isce.log`, extracts a fixed set of fields from each via anchored
multiline regular expressions, derives a few fields (a time delta and
midpoint coordinates), and aggregates one row per file into a table
indexed by the name of the immediate parent directory.

Embedding conventions:
* text is `String` / `List Char`; each compiled regular expression of the
  source is embedded as an explicit matcher over `List Char` together
  with a multiline search that tries every line start in order, exactly
  as `re.search` does for a `^`-anchored pattern in `re.M` mode;
* Python floats are modelled as exact rationals `ℚ`;
* Python `datetime` is a record of calendar fields; subtraction goes
  through the proleptic Gregorian ordinal as in CPython, and the
  `.seconds` attribute of the resulting timedelta is the normalised
  seconds component;
* fallible code (a regex that does not match, `strptime` on an invalid
  value, a failing `open`, the `KeyError` of `set_index` on an empty
  frame) is modelled with `Except`;
* the filesystem is a finite tree of named entries; `os.walk` with its
  two in-place sorts is the function `crawl`.
-/

namespace ParseLogs

/-! ### Character classes (Python `\d` and `\s`, ASCII range) -/

def isDigitC (c : Char) : Bool := 48 ≤ c.toNat && c.toNat ≤ 57

def isSpaceC (c : Char) : Bool :=
  c.toNat == 32 || c.toNat == 9 || c.toNat == 10 || c.toNat == 13
    || c.toNat == 11 || c.toNat == 12

/-! ### Numeric conversions (`int(...)`, `float(...)` on matched text) -/

/-- The head of the list, if any, fails the predicate (used to state
where a greedy scan must stop). -/
def headNot (p : Char → Bool) : List Char → Prop
  | [] => True
  | c :: _ => p c = false

def digitVal (c : Char) : Nat := c.toNat - '0'.toNat

/-- Value of a digit string, as computed by Python `int`. -/
def digitsToNat (cs : List Char) : Nat :=
  cs.foldl (fun a c => a * 10 + digitVal c) 0

/-- Value of a matched numeric literal (optional sign, optional integer
part, optional fractional part), as computed by Python `float`, modelled
exactly over `ℚ`. -/
def ratOfUnsigned (cs : List Char) : ℚ :=
  let ip := cs.takeWhile isDigitC
  match cs.drop ip.length with
  | c :: fp =>
    if c = '.' then (digitsToNat ip : ℚ) + (digitsToNat fp : ℚ) / (10 : ℚ) ^ fp.length
    else (digitsToNat cs : ℚ)
  | [] => (digitsToNat cs : ℚ)

def ratOfFloatChars (cs : List Char) : ℚ :=
  match cs with
  | c :: rest =>
    if c = '-' then -(ratOfUnsigned rest)
    else if c = '+' then ratOfUnsigned rest
    else ratOfUnsigned cs
  | [] => ratOfUnsigned cs

/-! ### Matcher combinators

A pattern literal is a `List (Option Char)`: `some c` matches exactly
`c`, `none` is the regex `.` metacharacter (any character except a
newline).  `wpat` builds such a literal from the raw regex text, where
`.` was left unescaped throughout the source. -/

def wpat (s : String) : List (Option Char) :=
  s.data.map (fun c => if c = '.' then none else some c)

def matchPat : List (Option Char) → List Char → Option (List Char)
  | [], cs => some cs
  | _ :: _, [] => none
  | some p :: ps, c :: cs => if c = p then matchPat ps cs else none
  | none :: ps, c :: cs => if c = '\n' then none else matchPat ps cs

/-- Greedy `\s+`. -/
def ws1 (cs : List Char) : Option (List Char) :=
  let ws := cs.takeWhile isSpaceC
  if ws.isEmpty then none else some (cs.drop ws.length)

/-- Greedy `\s+`, also returning the consumed whitespace (used when the
whitespace is inside a capture group). -/
def takeWs1 (cs : List Char) : Option (List Char × List Char) :=
  let ws := cs.takeWhile isSpaceC
  if ws.isEmpty then none else some (ws, cs.drop ws.length)

/-- Greedy `\d+`, returning the digits and the rest. -/
def digits1 (cs : List Char) : Option (List Char × List Char) :=
  let ds := cs.takeWhile isDigitC
  if ds.isEmpty then none else some (ds, cs.drop ds.length)

/-- `\d{n}`: exactly `n` digits. -/
def takeExactDigits : Nat → List Char → Option (List Char × List Char)
  | 0, cs => some ([], cs)
  | _ + 1, [] => none
  | n + 1, c :: cs =>
    if isDigitC c then
      match takeExactDigits n cs with
      | some (ds, rest) => some (c :: ds, rest)
      | none => none
    else none

/-- The optional `[-+]?` of the group: consumed sign (if any) and the
remaining text. -/
def splitSign (cs : List Char) : List Char × List Char :=
  match cs with
  | c :: rest => if c = '-' || c = '+' then ([c], rest) else ([], cs)
  | [] => ([], [])

/-- After `[-+]?\d*`: the mandatory `\.\d+` of the first alternative,
falling back to the given second alternative. -/
def afterIntPart (sgn ip : List Char) (alt2 : Option (List Char)) :
    List Char → Option (List Char)
  | [] => alt2
  | c :: cs3 =>
    if c = '.' then
      if (cs3.takeWhile isDigitC).isEmpty then alt2
      else some (sgn ++ ip ++ '.' :: cs3.takeWhile isDigitC)
    else alt2

/-- The group `([-+]?\d*\.\d+|\d+)` of the four bounding-box patterns:
first the signed-decimal alternative, then, from the same starting
position, the plain unsigned-integer alternative. -/
def floatGroup (cs : List Char) : Option (List Char) :=
  afterIntPart (splitSign cs).1 ((splitSign cs).2.takeWhile isDigitC)
    ((digits1 cs).map (·.1))
    ((splitSign cs).2.drop ((splitSign cs).2.takeWhile isDigitC).length)

/-- `re.M` search of a `^`-anchored pattern: try the start of the text,
then the position after every newline, first match wins. -/
def searchAux (m : List Char → Option (List Char)) : List Char → Option (List Char)
  | [] => none
  | c :: cs =>
    if c = '\n' then
      match m cs with
      | some r => some r
      | none => searchAux m cs
    else searchAux m cs

def searchTop (m : List Char → Option (List Char)) (cs : List Char) : Option (List Char) :=
  match m cs with
  | some r => some r
  | none => searchAux m cs

/-! ### The twelve compiled patterns of the source -/

/-- Shared shape of `^geocode.Azimuth\s+looks\s+=\s+(\d+)` and
`^geocode.Range\s+looks\s+=\s+(\d+)`. -/
def looksMatcher (key : String) (cs : List Char) : Option (List Char) :=
  match matchPat (wpat key) cs with
  | none => none
  | some cs =>
  match ws1 cs with
  | none => none
  | some cs =>
  match matchPat (wpat "looks") cs with
  | none => none
  | some cs =>
  match ws1 cs with
  | none => none
  | some cs =>
  match matchPat (wpat "=") cs with
  | none => none
  | some cs =>
  match ws1 cs with
  | none => none
  | some cs => (digits1 cs).map (·.1)

def ALKS_RE : List Char → Option (List Char) := looksMatcher "geocode.Azimuth"
def RLKS_RE : List Char → Option (List Char) := looksMatcher "geocode.Range"

/-- Shared shape of the four patterns `^geocode.X\s+=\s+([-+]?\d*\.\d+|\d+)`. -/
def floatValMatcher (key : String) (cs : List Char) : Option (List Char) :=
  match matchPat (wpat key) cs with
  | none => none
  | some cs =>
  match ws1 cs with
  | none => none
  | some cs =>
  match matchPat (wpat "=") cs with
  | none => none
  | some cs =>
  match ws1 cs with
  | none => none
  | some cs => floatGroup cs

def EAST_RE : List Char → Option (List Char) := floatValMatcher "geocode.East"
def WEST_RE : List Char → Option (List Char) := floatValMatcher "geocode.West"
def NORTH_RE : List Char → Option (List Char) := floatValMatcher "geocode.North"
def SOUTH_RE : List Char → Option (List Char) := floatValMatcher "geocode.South"

/-- Shared shape of `^geocode.Length\s+=\s+(\d+)` and `^geocode.Width\s+=\s+(\d+)`. -/
def intValMatcher (key : String) (cs : List Char) : Option (List Char) :=
  match matchPat (wpat key) cs with
  | none => none
  | some cs =>
  match ws1 cs with
  | none => none
  | some cs =>
  match matchPat (wpat "=") cs with
  | none => none
  | some cs =>
  match ws1 cs with
  | none => none
  | some cs => (digits1 cs).map (·.1)

def LENGTH_RE : List Char → Option (List Char) := intValMatcher "geocode.Length"
def WIDTH_RE : List Char → Option (List Char) := intValMatcher "geocode.Width"

/-- The capture group `(\d{4}-\d{2}-\d{2}\s+\d{2}:\d{2}:\d{2},\d{3})`. -/
def tsCommaGroup (cs : List Char) : Option (List Char × List Char) :=
  match takeExactDigits 4 cs with
  | none => none
  | some (y, cs) =>
  match matchPat [some '-'] cs with
  | none => none
  | some cs =>
  match takeExactDigits 2 cs with
  | none => none
  | some (mo, cs) =>
  match matchPat [some '-'] cs with
  | none => none
  | some cs =>
  match takeExactDigits 2 cs with
  | none => none
  | some (d, cs) =>
  match takeWs1 cs with
  | none => none
  | some (w, cs) =>
  match takeExactDigits 2 cs with
  | none => none
  | some (h, cs) =>
  match matchPat [some ':'] cs with
  | none => none
  | some cs =>
  match takeExactDigits 2 cs with
  | none => none
  | some (mi, cs) =>
  match matchPat [some ':'] cs with
  | none => none
  | some cs =>
  match takeExactDigits 2 cs with
  | none => none
  | some (s, cs) =>
  match matchPat [some ','] cs with
  | none => none
  | some cs =>
  match takeExactDigits 3 cs with
  | none => none
  | some (ms, cs) =>
    some (y ++ '-' :: mo ++ '-' :: d ++ w ++ h ++ ':' :: mi ++ ':' :: s ++ ',' :: ms, cs)

/-- `^(\d{4}-\d{2}-\d{2}\s+\d{2}:\d{2}:\d{2},\d{3}) - isce.mroipac.filter - INFO - Filtering interferogram` -/
def FILTER_TIME_RE (cs : List Char) : Option (List Char) :=
  match tsCommaGroup cs with
  | none => none
  | some (cap, cs) =>
  match matchPat (wpat " - isce.mroipac.filter - INFO - Filtering interferogram") cs with
  | none => none
  | some _ => some cap

/-- `^(\d{4}-\d{2}-\d{2}\s+\d{2}:\d{2}:\d{2},\d{3}) - isce.topsinsar.runGeocode - INFO - Geocoding Image` -/
def GEOCODING_TIME_RE (cs : List Char) : Option (List Char) :=
  match tsCommaGroup cs with
  | none => none
  | some (cap, cs) =>
  match matchPat (wpat " - isce.topsinsar.runGeocode - INFO - Geocoding Image") cs with
  | none => none
  | some _ => some cap

/-- The capture group `(\d{4}-\d{2}-\d{2}\s+\d{2}:\d{2}:\d{2}\.\d+)`. -/
def tsDotGroup (cs : List Char) : Option (List Char) :=
  match takeExactDigits 4 cs with
  | none => none
  | some (y, cs) =>
  match matchPat [some '-'] cs with
  | none => none
  | some cs =>
  match takeExactDigits 2 cs with
  | none => none
  | some (mo, cs) =>
  match matchPat [some '-'] cs with
  | none => none
  | some cs =>
  match takeExactDigits 2 cs with
  | none => none
  | some (d, cs) =>
  match takeWs1 cs with
  | none => none
  | some (w, cs) =>
  match takeExactDigits 2 cs with
  | none => none
  | some (h, cs) =>
  match matchPat [some ':'] cs with
  | none => none
  | some cs =>
  match takeExactDigits 2 cs with
  | none => none
  | some (mi, cs) =>
  match matchPat [some ':'] cs with
  | none => none
  | some cs =>
  match takeExactDigits 2 cs with
  | none => none
  | some (s, cs) =>
  match matchPat [some '.'] cs with
  | none => none
  | some cs =>
  match digits1 cs with
  | none => none
  | some (fr, _) =>
    some (y ++ '-' :: mo ++ '-' :: d ++ w ++ h ++ ':' :: mi ++ ':' :: s ++ '.' :: fr)

/-- `^master.sensor.ascendingnodetime\s+=\s+(\d{4}-\d{2}-\d{2}\s+\d{2}:\d{2}:\d{2}\.\d+)` -/
def ascNodeMatcher (key : String) (cs : List Char) : Option (List Char) :=
  match matchPat (wpat key) cs with
  | none => none
  | some cs =>
  match ws1 cs with
  | none => none
  | some cs =>
  match matchPat (wpat "=") cs with
  | none => none
  | some cs =>
  match ws1 cs with
  | none => none
  | some cs => tsDotGroup cs

def ASC_NODE_TIME_MASTER_RE : List Char → Option (List Char) :=
  ascNodeMatcher "master.sensor.ascendingnodetime"

/-- `^slave.sensor.ascendingnodetime\s+=\s+(\d{4}-\d{2}-\d{2}\s+\d{2}:\d{2}:\d{2}\.\d+)` -/
def ASC_NODE_TIME_SLAVE_RE : List Char → Option (List Char) :=
  ascNodeMatcher "slave.sensor.ascendingnodetime"

/-! ### Datetime (Python `datetime.datetime`) -/

structure Datetime where
  year : Nat
  month : Nat
  day : Nat
  hour : Nat
  minute : Nat
  second : Nat
  microsecond : Nat
deriving DecidableEq

/-- Gregorian leap year, as in CPython `datetime`. -/
def isLeap (y : Nat) : Bool := y % 4 == 0 && (y % 100 != 0 || y % 400 == 0)

def daysInMonth (y m : Nat) : Nat :=
  if m = 2 then (if isLeap y then 29 else 28)
  else if m = 4 || m = 6 || m = 9 || m = 11 then 30
  else 31

def daysBeforeMonth (y m : Nat) : Nat :=
  (List.range (m - 1)).foldl (fun a i => a + daysInMonth y (i + 1)) 0

def daysBeforeYear (y : Nat) : Nat :=
  let n := y - 1
  365 * n + n / 4 - n / 100 + n / 400

/-- Proleptic Gregorian ordinal: `datetime.toordinal`, with day 1 being
0001-01-01. -/
def toordinal (dt : Datetime) : Nat :=
  daysBeforeYear dt.year + daysBeforeMonth dt.year dt.month + dt.day

def secondsOfDay (dt : Datetime) : Nat :=
  dt.hour * 3600 + dt.minute * 60 + dt.second

/-- Total signed microseconds of `b - a`, as computed by Python datetime
subtraction (difference of ordinals, of in-day seconds and of
microseconds, before timedelta normalisation). -/
def deltaUs (b a : Datetime) : Int :=
  ((toordinal b : Int) - (toordinal a : Int)) * 86400000000
    + ((secondsOfDay b : Int) - (secondsOfDay a : Int)) * 1000000
    + ((b.microsecond : Int) - (a.microsecond : Int))

/-- The `.seconds` attribute of the timedelta `b - a`: after
normalisation (`0 <= microseconds < 10^6`, `0 <= seconds < 86400`,
floor-carried days), the seconds component. -/
def tdSeconds (b a : Datetime) : Int :=
  ((deltaUs b a) % 86400000000) / 1000000

/-- Range validation performed by the `datetime` constructor (together
with the `strptime` field patterns, for two-digit inputs the net effect
is these bounds). -/
def mkValidDatetime (y mo d h mi s us : Nat) : Option Datetime :=
  if 1 ≤ y ∧ y ≤ 9999 ∧ 1 ≤ mo ∧ mo ≤ 12 ∧ 1 ≤ d ∧ d ≤ daysInMonth y mo
      ∧ h ≤ 23 ∧ mi ≤ 59 ∧ s ≤ 59 ∧ us ≤ 999999 then
    some ⟨y, mo, d, h, mi, s, us⟩
  else none

/-- `datetime.strptime(_, "%Y-%m-%d %H:%M:%S,%f")` applied to a captured
timestamp (whitespace in the format matches a whitespace run; `%f`
accepts one to six digits, right-padded with zeros to microseconds; any
unconverted trailing text is an error). -/
def strptimeSep (sep : Char) (cs : List Char) : Option Datetime :=
  match takeExactDigits 4 cs with
  | none => none
  | some (y, cs) =>
  match matchPat [some '-'] cs with
  | none => none
  | some cs =>
  match takeExactDigits 2 cs with
  | none => none
  | some (mo, cs) =>
  match matchPat [some '-'] cs with
  | none => none
  | some cs =>
  match takeExactDigits 2 cs with
  | none => none
  | some (d, cs) =>
  match ws1 cs with
  | none => none
  | some cs =>
  match takeExactDigits 2 cs with
  | none => none
  | some (h, cs) =>
  match matchPat [some ':'] cs with
  | none => none
  | some cs =>
  match takeExactDigits 2 cs with
  | none => none
  | some (mi, cs) =>
  match matchPat [some ':'] cs with
  | none => none
  | some cs =>
  match takeExactDigits 2 cs with
  | none => none
  | some (s, cs) =>
  match matchPat [some sep] cs with
  | none => none
  | some cs =>
  match digits1 cs with
  | none => none
  | some (fr, rest) =>
  if fr.length ≤ 6 ∧ rest = [] then
    mkValidDatetime (digitsToNat y) (digitsToNat mo) (digitsToNat d)
      (digitsToNat h) (digitsToNat mi) (digitsToNat s)
      (digitsToNat fr * 10 ^ (6 - fr.length))
  else none

def strptimeComma : List Char → Option Datetime := strptimeSep ','

/-- `datetime.strptime(_, "%Y-%m-%d %H:%M:%S.%f")`, dot-delimited
fractional seconds. -/
def strptimeDot : List Char → Option Datetime := strptimeSep '.'

/-- `datetime.isoformat()`. -/
def padNum (w n : Nat) : String :=
  let s := toString n
  String.mk (List.replicate (w - s.length) '0') ++ s

def isoformat (dt : Datetime) : String :=
  padNum 4 dt.year ++ "-" ++ padNum 2 dt.month ++ "-" ++ padNum 2 dt.day ++ "T"
    ++ padNum 2 dt.hour ++ ":" ++ padNum 2 dt.minute ++ ":" ++ padNum 2 dt.second
    ++ (if dt.microsecond = 0 then "" else "." ++ padNum 6 dt.microsecond)

/-! ### Field extraction (`parse`, the regex-and-convert part) -/

inductive ParseErr where
  | missingField (name : String)
  | badValue (name : String)
  | readError
deriving DecidableEq

structure Fields where
  alks : Nat
  rlks : Nat
  east : ℚ
  west : ℚ
  north : ℚ
  south : ℚ
  length : Nat
  width : Nat
  filt_start_dt : Datetime
  geocoding_start_dt : Datetime
  master_asc_node_time : Datetime
  slave_asc_node_time : Datetime
deriving DecidableEq

/-- A regex search whose result is fed to `.group(1)`: a failed search
aborts the whole parse at that statement (the model records which field
it was), a successful one is converted with `int`. -/
def getNatField (name : String) (o : Option (List Char)) : Except ParseErr Nat :=
  match o with
  | none => .error (.missingField name)
  | some ds => .ok (digitsToNat ds)

/-- Same, with `float`. -/
def getRatField (name : String) (o : Option (List Char)) : Except ParseErr ℚ :=
  match o with
  | none => .error (.missingField name)
  | some cs => .ok (ratOfFloatChars cs)

/-- Same, with `datetime.strptime`; a capture whose values fail range
validation raises at the conversion instead. -/
def getDtField (name : String) (p : List Char → Option Datetime)
    (o : Option (List Char)) : Except ParseErr Datetime :=
  match o with
  | none => .error (.missingField name)
  | some cs =>
    match p cs with
    | none => .error (.badValue name)
    | some dt => .ok dt

/-- The extraction statements of `parse`, in source order; all-or-nothing. -/
def extract (text : String) : Except ParseErr Fields :=
  match getNatField "alks" (searchTop ALKS_RE text.data) with
  | .error e => .error e
  | .ok alks =>
  match getNatField "rlks" (searchTop RLKS_RE text.data) with
  | .error e => .error e
  | .ok rlks =>
  match getRatField "east" (searchTop EAST_RE text.data) with
  | .error e => .error e
  | .ok east =>
  match getRatField "west" (searchTop WEST_RE text.data) with
  | .error e => .error e
  | .ok west =>
  match getRatField "north" (searchTop NORTH_RE text.data) with
  | .error e => .error e
  | .ok north =>
  match getRatField "south" (searchTop SOUTH_RE text.data) with
  | .error e => .error e
  | .ok south =>
  match getNatField "length" (searchTop LENGTH_RE text.data) with
  | .error e => .error e
  | .ok length =>
  match getNatField "width" (searchTop WIDTH_RE text.data) with
  | .error e => .error e
  | .ok width =>
  match getDtField "filt_start_dt" strptimeComma (searchTop FILTER_TIME_RE text.data) with
  | .error e => .error e
  | .ok filt_start_dt =>
  match getDtField "geocoding_start_dt" strptimeComma (searchTop GEOCODING_TIME_RE text.data) with
  | .error e => .error e
  | .ok geocoding_start_dt =>
  match getDtField "master_asc_node_time" strptimeDot (searchTop ASC_NODE_TIME_MASTER_RE text.data) with
  | .error e => .error e
  | .ok master_asc_node_time =>
  match getDtField "slave_asc_node_time" strptimeDot (searchTop ASC_NODE_TIME_SLAVE_RE text.data) with
  | .error e => .error e
  | .ok slave_asc_node_time =>
  .ok ⟨alks, rlks, east, west, north, south, length, width,
    filt_start_dt, geocoding_start_dt, master_asc_node_time, slave_asc_node_time⟩

/-- The twelve required fields, in extraction order. -/
inductive FieldName where
  | alks | rlks | east | west | north | south | length | width
  | filt_start_dt | geocoding_start_dt | master_asc_node_time | slave_asc_node_time
deriving DecidableEq, Fintype

def fieldKey : FieldName → String
  | .alks => "alks"
  | .rlks => "rlks"
  | .east => "east"
  | .west => "west"
  | .north => "north"
  | .south => "south"
  | .length => "length"
  | .width => "width"
  | .filt_start_dt => "filt_start_dt"
  | .geocoding_start_dt => "geocoding_start_dt"
  | .master_asc_node_time => "master_asc_node_time"
  | .slave_asc_node_time => "slave_asc_node_time"

/-- The search of one field's pattern over the full text. -/
def fieldSearch (f : FieldName) (text : String) : Option (List Char) :=
  match f with
  | .alks => searchTop ALKS_RE text.data
  | .rlks => searchTop RLKS_RE text.data
  | .east => searchTop EAST_RE text.data
  | .west => searchTop WEST_RE text.data
  | .north => searchTop NORTH_RE text.data
  | .south => searchTop SOUTH_RE text.data
  | .length => searchTop LENGTH_RE text.data
  | .width => searchTop WIDTH_RE text.data
  | .filt_start_dt => searchTop FILTER_TIME_RE text.data
  | .geocoding_start_dt => searchTop GEOCODING_TIME_RE text.data
  | .master_asc_node_time => searchTop ASC_NODE_TIME_MASTER_RE text.data
  | .slave_asc_node_time => searchTop ASC_NODE_TIME_SLAVE_RE text.data

/-- Whether the single extraction statement of one field succeeds. -/
def stepOk (f : FieldName) (text : String) : Bool :=
  match f with
  | .alks => (getNatField "alks" (fieldSearch .alks text)).isOk
  | .rlks => (getNatField "rlks" (fieldSearch .rlks text)).isOk
  | .east => (getRatField "east" (fieldSearch .east text)).isOk
  | .west => (getRatField "west" (fieldSearch .west text)).isOk
  | .north => (getRatField "north" (fieldSearch .north text)).isOk
  | .south => (getRatField "south" (fieldSearch .south text)).isOk
  | .length => (getNatField "length" (fieldSearch .length text)).isOk
  | .width => (getNatField "width" (fieldSearch .width text)).isOk
  | .filt_start_dt => (getDtField "filt_start_dt" strptimeComma (fieldSearch .filt_start_dt text)).isOk
  | .geocoding_start_dt => (getDtField "geocoding_start_dt" strptimeComma (fieldSearch .geocoding_start_dt text)).isOk
  | .master_asc_node_time => (getDtField "master_asc_node_time" strptimeDot (fieldSearch .master_asc_node_time text)).isOk
  | .slave_asc_node_time => (getDtField "slave_asc_node_time" strptimeDot (fieldSearch .slave_asc_node_time text)).isOk

/-! ### The output row and the derivation step -/

structure LogRecord where
  id : String
  master_asc_node_time : String
  slave_asc_node_time : String
  filt_start_dt : String
  geocoding_start_dt : String
  filter_geo_delta_secs : Int
  length : Nat
  width : Nat
  east : ℚ
  west : ℚ
  south : ℚ
  north : ℚ
  alks : Nat
  rlks : Nat
  lat : ℚ
  lon : ℚ
deriving DecidableEq

/-- The dict built at the end of `parse`: isoformat timestamps, the
`.seconds` of the stage delta, and the midpoint coordinates
`south + abs((north-south)/2)`, `west + abs((east-west)/2)`. -/
def deriveRecord (id : String) (f : Fields) : LogRecord :=
  { id := id
    master_asc_node_time := isoformat f.master_asc_node_time
    slave_asc_node_time := isoformat f.slave_asc_node_time
    filt_start_dt := isoformat f.filt_start_dt
    geocoding_start_dt := isoformat f.geocoding_start_dt
    filter_geo_delta_secs := tdSeconds f.geocoding_start_dt f.filt_start_dt
    length := f.length
    width := f.width
    east := f.east
    west := f.west
    south := f.south
    north := f.north
    alks := f.alks
    rlks := f.rlks
    lat := f.south + |(f.north - f.south) / 2|
    lon := f.west + |(f.east - f.west) / 2| }

/-! ### The filesystem model and the crawler

A directory is a finite list of named entries, in an arbitrary order
standing for the unspecified order in which the operating system lists
it; `crawl` (the generator `crawl` of the source, i.e. `os.walk` plus
the `isce.log` filter) sorts file names and directory names at every
level before emitting and descending, exactly as the two in-place
`sort()` calls do.  Paths are lists of components. -/

inductive FSEntry where
  | file (name : String) (content : String)
  | dir (name : String) (entries : List FSEntry)

def entryName : FSEntry → String
  | .file n _ => n
  | .dir n _ => n

def fileNameOf : FSEntry → Option String
  | .file n _ => some n
  | .dir _ _ => none

def dirOf : FSEntry → Option (String × List FSEntry)
  | .dir n es => some (n, es)
  | .file _ _ => none

/-- Stable insertion into a sorted list (Python `list.sort` is a stable
sort by `<=`; on the duplicate-free name lists of a real directory any
sorted permutation is the same list). -/
def insertLe (le : α → α → Bool) (x : α) : List α → List α
  | [] => [x]
  | y :: ys => if le x y then x :: y :: ys else y :: insertLe le x ys

def isort (le : α → α → Bool) : List α → List α
  | [] => []
  | x :: xs => insertLe le x (isort le xs)

/-- Lexicographic comparison of code-point sequences: the order Python
uses on `str` (and the order of Lean `String`, stated over `.data` so
that it computes by structural recursion). -/
def lexLe : List Char → List Char → Bool
  | [], _ => true
  | _ :: _, [] => false
  | c :: cs, d :: ds =>
    if c.toNat < d.toNat then true
    else if d.toNat < c.toNat then false
    else lexLe cs ds

def strLe (a b : String) : Bool := lexLe a.data b.data

def dirLe (p q : String × List FSEntry) : Bool := strLe p.1 q.1

theorem insertLe_perm (le : α → α → Bool) (x : α) (l : List α) :
    (insertLe le x l).Perm (x :: l) := by
  induction l with
  | nil => simp [insertLe]
  | cons y ys ih =>
    simp only [insertLe]
    split
    · exact List.Perm.refl _
    · exact (List.Perm.cons y ih).trans (List.Perm.swap x y ys)

theorem isort_perm (le : α → α → Bool) (l : List α) : (isort le l).Perm l := by
  induction l with
  | nil => exact List.Perm.refl _
  | cons x xs ih =>
    exact (insertLe_perm le x (isort le xs)).trans (List.Perm.cons x ih)

theorem mem_isort {le : α → α → Bool} {a : α} {l : List α}
    (h : a ∈ isort le l) : a ∈ l :=
  (isort_perm le l).mem_iff.mp h

theorem sizeOf_of_mem_dirs {es : List FSEntry} {p : String × List FSEntry}
    (h : p ∈ es.filterMap dirOf) : sizeOf p.2 < sizeOf es := by
  obtain ⟨e, he, hde⟩ := List.mem_filterMap.mp h
  have hlt := List.sizeOf_lt_of_mem he
  cases e with
  | file n c => simp [dirOf] at hde
  | dir n sub =>
    simp only [dirOf, Option.some.injEq] at hde
    subst hde
    simp only [FSEntry.dir.sizeOf_spec] at hlt
    simp only []
    omega

/-- `crawl` of the source: `os.walk(path, followlinks=True)` over the
tree, with `files.sort()` and `dirs.sort()` at each level, yielding
`os.path.join(root, file)` for every file named exactly `isce.log`;
files of a directory come before the contents of its subdirectories. -/
def crawl (r : List String) (es : List FSEntry) : List (List String) :=
  let files := isort strLe (es.filterMap fileNameOf)
  let dirs := isort dirLe (es.filterMap dirOf)
  ((files.filter (fun f => f == "isce.log")).map (fun f => r ++ [f])) ++
    dirs.attach.flatMap (fun d => crawl (r ++ [d.1.1]) d.1.2)
termination_by sizeOf es
decreasing_by
  exact sizeOf_of_mem_dirs (mem_isort d.2)

/-- Reading a file: navigate the directory components, then look up the
final component among the files. -/
def readFS : List FSEntry → List String → Option String
  | _, [] => none
  | es, [n] =>
    es.findSome? (fun e =>
      match e with
      | .file m c => if m = n then some c else none
      | .dir _ _ => none)
  | es, n :: q :: qs =>
    match es.findSome? (fun e =>
      match e with
      | .dir m sub => if m = n then some sub else none
      | .file _ _ => none) with
    | some sub => readFS sub (q :: qs)
    | none => none

/-- The ambient filesystem seen by `parse` when `main` runs on root `r`
over the tree `es`: a crawled path `r ++ q` denotes the entry at `q`. -/
def fsOf (r : List String) (es : List FSEntry) : List String → Option String :=
  fun p => readFS es (p.drop r.length)

/-- `os.path.basename(os.path.dirname(p))`. -/
def pathId (p : List String) : String := p.dropLast.getLastD ""

/-- One iteration of the aggregation loop: `parse(i)` for one crawled
path (get the id from the path, read the file, extract, derive). -/
def parse (fs : List String → Option String) (p : List String) :
    Except ParseErr LogRecord :=
  match fs p with
  | none => .error .readError
  | some text => (extract text).map (deriveRecord (pathId p))

/-- The `try/except` loop of `main`: successes are appended to
`all_data`, failures are logged (source path and failure detail) and the
loop continues with the next file. -/
def collect (fs : List String → Option String) :
    List (List String) → List LogRecord × List (List String × ParseErr)
  | [] => ([], [])
  | p :: ps =>
    let rest := collect fs ps
    match parse fs p with
    | .ok rec => (rec :: rest.1, rest.2)
    | .error e => (rest.1, (p, e) :: rest.2)

inductive MainErr where
  | keyError
deriving DecidableEq

/-- `main` of the source: crawl, parse each file inside the per-file
`try/except`, then `pd.DataFrame(all_data).set_index('id')`.  On an
empty `all_data` the empty frame has no `id` column and `set_index`
raises `KeyError`; otherwise the table keeps the rows in traversal
order, indexed (without deduplication) by `id`. -/
def main (r : List String) (es : List FSEntry) :
    Except MainErr (List LogRecord × List (List String × ParseErr)) :=
  let pr := collect (fsOf r es) (crawl r es)
  if pr.1.isEmpty then .error .keyError else .ok pr

/-! ### Relations used to state the crawler claims -/

/-- A file named `isce.log` exists in the tree at the relative path. -/
inductive HasLog : List FSEntry → List String → Prop where
  | file {es : List FSEntry} {c : String} :
      FSEntry.file "isce.log" c ∈ es → HasLog es ["isce.log"]
  | dir {es : List FSEntry} {n : String} {sub : List FSEntry} {q : List String} :
      FSEntry.dir n sub ∈ es → HasLog sub q → HasLog es (n :: q)

mutual
/-- Same tree up to the order in which each directory lists its entries. -/
inductive ShuffledE : FSEntry → FSEntry → Prop where
  | file (n c : String) : ShuffledE (.file n c) (.file n c)
  | dir (n : String) {sub sub' : List FSEntry} :
      ShuffledL sub sub' → ShuffledE (.dir n sub) (.dir n sub')

inductive ShuffledL : List FSEntry → List FSEntry → Prop where
  | mk {es mid es' : List FSEntry} :
      es.Perm mid → ShuffledPW mid es' → ShuffledL es es'

inductive ShuffledPW : List FSEntry → List FSEntry → Prop where
  | nil : ShuffledPW [] []
  | cons {e e' : FSEntry} {es es' : List FSEntry} :
      ShuffledE e e' → ShuffledPW es es' → ShuffledPW (e :: es) (e' :: es')
end

mutual
/-- Entry names are duplicate-free in every directory of the tree (true
of any real filesystem). -/
inductive NdE : FSEntry → Prop where
  | file {n c : String} : NdE (.file n c)
  | dir {n : String} {sub : List FSEntry} :
      (sub.map entryName).Nodup → NdAll sub → NdE (.dir n sub)

inductive NdAll : List FSEntry → Prop where
  | nil : NdAll []
  | cons {e : FSEntry} {es : List FSEntry} :
      NdE e → NdAll es → NdAll (e :: es)
end

def NdTop (es : List FSEntry) : Prop := (es.map entryName).Nodup ∧ NdAll es

/-- Relation between directory pairs: same name, shuffled contents. -/
def dirRel (p q : String × List FSEntry) : Prop := p.1 = q.1 ∧ ShuffledL p.2 q.2

/-! ### Concrete inputs used by the testable properties -/

/-- A complete `isce.log` text containing every required field, with the
timestamps of the specification example. -/
def goodText : String :=
  "geocode.Azimuth looks = 7\ngeocode.Range looks = 19\ngeocode.East = 10.0\ngeocode.West = 2.0\ngeocode.North = 8.0\ngeocode.South = 4.0\ngeocode.Length = 100\ngeocode.Width = 200\n2020-01-01 00:00:00,000 - isce.mroipac.filter - INFO - Filtering interferogram\n2020-01-01 00:05:30,500 - isce.topsinsar.runGeocode - INFO - Geocoding Image\nmaster.sensor.ascendingnodetime = 2020-01-01 01:02:03.000004\nslave.sensor.ascendingnodetime = 2020-01-01 02:03:04.000005\n"

/-- The fields `extract` finds in `goodText`. -/
def exFields : Fields :=
  ⟨7, 19, 10, 2, 8, 4, 100, 200, ⟨2020, 1, 1, 0, 0, 0, 0⟩, ⟨2020, 1, 1, 0, 5, 30, 500000⟩,
    ⟨2020, 1, 1, 1, 2, 3, 4⟩, ⟨2020, 1, 1, 2, 3, 4, 5⟩⟩

/-- `goodText` with the `geocode.Width` line removed: malformed (one
required field missing). -/
def badText : String :=
  "geocode.Azimuth looks = 7\ngeocode.Range looks = 19\ngeocode.East = 10.0\ngeocode.West = 2.0\ngeocode.North = 8.0\ngeocode.South = 4.0\ngeocode.Length = 100\n2020-01-01 00:00:00,000 - isce.mroipac.filter - INFO - Filtering interferogram\n2020-01-01 00:05:30,500 - isce.topsinsar.runGeocode - INFO - Geocoding Image\nmaster.sensor.ascendingnodetime = 2020-01-01 01:02:03.000004\nslave.sensor.ascendingnodetime = 2020-01-01 02:03:04.000005\n"

/-- `goodText` with North and South swapped (`geocode.North = 4.0`,
`geocode.South = 8.0`): a valid log whose box has south above north. -/
def swapText : String :=
  "geocode.Azimuth looks = 7\ngeocode.Range looks = 19\ngeocode.East = 10.0\ngeocode.West = 2.0\ngeocode.North = 4.0\ngeocode.South = 8.0\ngeocode.Length = 100\ngeocode.Width = 200\n2020-01-01 00:00:00,000 - isce.mroipac.filter - INFO - Filtering interferogram\n2020-01-01 00:05:30,500 - isce.topsinsar.runGeocode - INFO - Geocoding Image\nmaster.sensor.ascendingnodetime = 2020-01-01 01:02:03.000004\nslave.sensor.ascendingnodetime = 2020-01-01 02:03:04.000005\n"

/-- `goodText` with `geocode.Width = 300`: a second valid log,
distinguishable from the first by its `width`. -/
def goodText2 : String :=
  "geocode.Azimuth looks = 7\ngeocode.Range looks = 19\ngeocode.East = 10.0\ngeocode.West = 2.0\ngeocode.North = 8.0\ngeocode.South = 4.0\ngeocode.Length = 100\ngeocode.Width = 300\n2020-01-01 00:00:00,000 - isce.mroipac.filter - INFO - Filtering interferogram\n2020-01-01 00:05:30,500 - isce.topsinsar.runGeocode - INFO - Geocoding Image\nmaster.sensor.ascendingnodetime = 2020-01-01 01:02:03.000004\nslave.sensor.ascendingnodetime = 2020-01-01 02:03:04.000005\n"

def exFields2 : Fields :=
  ⟨7, 19, 10, 2, 8, 4, 100, 300, ⟨2020, 1, 1, 0, 0, 0, 0⟩, ⟨2020, 1, 1, 0, 5, 30, 500000⟩,
    ⟨2020, 1, 1, 1, 2, 3, 4⟩, ⟨2020, 1, 1, 2, 3, 4, 5⟩⟩

/-- One valid and one malformed log under sibling directories. -/
def mixedTree : List FSEntry :=
  [.dir "A" [.file "isce.log" goodText], .dir "B" [.file "isce.log" badText]]

/-- A single malformed log. -/
def badOnlyTree : List FSEntry :=
  [.dir "B" [.file "isce.log" badText]]

/-- Two valid logs whose parents are both named `A`, under distinct
grandparents. -/
def dupIdTree : List FSEntry :=
  [.dir "x" [.dir "A" [.file "isce.log" goodText]],
   .dir "y" [.dir "A" [.file "isce.log" goodText2]]]

/-- Two valid logs under sibling directories `A` and `B`. -/
def siblingTree : List FSEntry :=
  [.dir "A" [.file "isce.log" goodText], .dir "B" [.file "isce.log" goodText2]]

/-- `siblingTree` as the operating system might list it in the other
order. -/
def siblingTreeRev : List FSEntry :=
  [.dir "B" [.file "isce.log" goodText2], .dir "A" [.file "isce.log" goodText]]

/-! ### Definitions following the wording of the specification
(for comparison with what the code computes) -/

/-- The truncated (toward zero) whole-second difference named by the
specification sentence for `filter_geo_delta_secs`. -/
def truncSecondsSpec (b a : Datetime) : Int := Int.tdiv (deltaUs b a) 1000000

/-! ### Helper lemmas -/

theorem flatMap_attach (l : List α) (f : α → List β) :
    (l.attach.flatMap fun x => f x.1) = l.flatMap f := by
  conv_rhs => rw [← List.attach_map_subtype_val l, List.flatMap_map]

/-- The defining equation of `crawl`, with the termination bookkeeping
removed. -/
theorem crawl_eq (r : List String) (es : List FSEntry) :
    crawl r es =
      (((isort strLe (es.filterMap fileNameOf)).filter
          (fun f => f == "isce.log")).map (fun f => r ++ [f])) ++
        (isort dirLe (es.filterMap dirOf)).flatMap (fun d => crawl (r ++ [d.1]) d.2) := by
  rw [crawl]
  exact congrArg _ (flatMap_attach (isort dirLe (es.filterMap dirOf))
    (fun d => crawl (r ++ [d.1]) d.2))

set_option maxRecDepth 40000

theorem charEq_of_toNat {c d : Char} (h : c.toNat = d.toNat) : c = d :=
  Char.eq_of_val_eq (UInt32.toNat.inj h)

theorem lexLe_total (a b : List Char) : lexLe a b = true ∨ lexLe b a = true := by
  induction a generalizing b with
  | nil => left; rfl
  | cons c cs ih =>
    cases b with
    | nil => right; rfl
    | cons d ds =>
      rcases Nat.lt_trichotomy c.toNat d.toNat with h | h | h
      · left; simp [lexLe, h]
      · rcases ih ds with h2 | h2
        · left; simp [lexLe, h, h2]
        · right; simp [lexLe, h.symm, h2]
      · right; simp [lexLe, h]

theorem lexLe_trans {a b c : List Char} (h1 : lexLe a b = true)
    (h2 : lexLe b c = true) : lexLe a c = true := by
  induction a generalizing b c with
  | nil => rfl
  | cons x xs ih =>
    cases b with
    | nil => simp [lexLe] at h1
    | cons y ys =>
      cases c with
      | nil => simp [lexLe] at h2
      | cons z zs =>
        simp only [lexLe] at h1 h2 ⊢
        split_ifs at h1 h2 ⊢ with g1 g2 g3 g4 g5 g6 <;> try rfl
        all_goals try omega
        all_goals try simp_all
        · exact ih h1 h2

theorem lexLe_antisymm {a b : List Char} (h1 : lexLe a b = true)
    (h2 : lexLe b a = true) : a = b := by
  induction a generalizing b with
  | nil =>
    cases b with
    | nil => rfl
    | cons d ds => simp [lexLe] at h2
  | cons c cs ih =>
    cases b with
    | nil => simp [lexLe] at h1
    | cons d ds =>
      simp only [lexLe] at h1 h2
      split_ifs at h1 h2 with g1 g2 g3 <;> try simp_all
      all_goals try omega
      have hc : c = d := charEq_of_toNat (by omega)
      subst hc
      exact ⟨rfl, ih h1 h2⟩

theorem strLe_total (a b : String) : strLe a b = true ∨ strLe b a = true :=
  lexLe_total a.data b.data

theorem strLe_trans {a b c : String} (h1 : strLe a b = true)
    (h2 : strLe b c = true) : strLe a c = true :=
  lexLe_trans h1 h2

theorem strLe_antisymm {a b : String} (h1 : strLe a b = true)
    (h2 : strLe b a = true) : a = b := by
  cases a with
  | mk da =>
    cases b with
    | mk db =>
      have : da = db := lexLe_antisymm h1 h2
      rw [this]

theorem sorted_perm_eq {α : Type} {r : α → α → Prop}
    (anti : ∀ a b, r a b → r b a → a = b) {l₁ l₂ : List α}
    (hp : l₁.Perm l₂) (h1 : l₁.Pairwise r) (h2 : l₂.Pairwise r) : l₁ = l₂ := by
  haveI : IsAntisymm α r := ⟨anti⟩
  exact List.eq_of_perm_of_sorted hp h1 h2

theorem mem_insertLe {le : α → α → Bool} {z x : α} {l : List α} :
    z ∈ insertLe le x l ↔ z = x ∨ z ∈ l := by
  rw [(insertLe_perm le x l).mem_iff, List.mem_cons]

theorem sorted_insertLe {le : α → α → Bool}
    (htot : ∀ a b, le a b = true ∨ le b a = true)
    (htr : ∀ a b c, le a b = true → le b c = true → le a c = true)
    (x : α) {l : List α} (hl : l.Pairwise (fun a b => le a b = true)) :
    (insertLe le x l).Pairwise (fun a b => le a b = true) := by
  induction l with
  | nil => simp [insertLe]
  | cons y ys ih =>
    rw [List.pairwise_cons] at hl
    simp only [insertLe]
    split
    · refine List.Pairwise.cons ?_ (List.Pairwise.cons hl.1 hl.2)
      intro z hz
      rcases List.mem_cons.mp hz with rfl | hz2
      · assumption
      · next hxy => exact htr x y z hxy (hl.1 z hz2)
    · next hxy =>
      have hyx : le y x = true := by
        rcases htot x y with h | h
        · exact absurd h hxy
        · exact h
      refine List.Pairwise.cons ?_ (ih hl.2)
      intro z hz
      rcases mem_insertLe.mp hz with rfl | hz2
      · exact hyx
      · exact hl.1 z hz2

theorem sorted_isort {le : α → α → Bool}
    (htot : ∀ a b, le a b = true ∨ le b a = true)
    (htr : ∀ a b c, le a b = true → le b c = true → le a c = true)
    (l : List α) : (isort le l).Pairwise (fun a b => le a b = true) := by
  induction l with
  | nil => simp [isort]
  | cons x xs ih => exact sorted_insertLe htot htr x ih

theorem dirLe_total (a b : String × List FSEntry) : dirLe a b = true ∨ dirLe b a = true :=
  strLe_total a.1 b.1

theorem dirLe_trans {a b c : String × List FSEntry} (h1 : dirLe a b = true)
    (h2 : dirLe b c = true) : dirLe a c = true :=
  strLe_trans h1 h2

/-! ### Concrete crawls -/

theorem crawl_leaf (r : List String) (es : List FSEntry) (h : es.filterMap dirOf = []) :
    crawl r es =
      ((isort strLe (es.filterMap fileNameOf)).filter
        (fun f => f == "isce.log")).map (fun f => r ++ [f]) := by
  rw [crawl_eq, h]
  simp [isort]

theorem crawl_nil (r : List String) : crawl r [] = [] := by
  rw [crawl_eq]
  rfl

theorem crawl_mixed : crawl ["r"] mixedTree = [["r", "A", "isce.log"], ["r", "B", "isce.log"]] := by
  rw [crawl_eq]
  rw [show isort dirLe (mixedTree.filterMap dirOf) =
    [("A", [FSEntry.file "isce.log" goodText]), ("B", [FSEntry.file "isce.log" badText])] from rfl]
  rw [List.flatMap_cons, List.flatMap_cons, List.flatMap_nil]
  rw [crawl_leaf _ _ (by rfl), crawl_leaf _ _ (by rfl)]
  rfl

theorem crawl_badOnly : crawl ["r"] badOnlyTree = [["r", "B", "isce.log"]] := by
  rw [crawl_eq]
  rw [show isort dirLe (badOnlyTree.filterMap dirOf) =
    [("B", [FSEntry.file "isce.log" badText])] from rfl]
  rw [List.flatMap_cons, List.flatMap_nil]
  rw [crawl_leaf _ _ (by rfl)]
  rfl

theorem crawl_sibling : crawl ["r"] siblingTree =
    [["r", "A", "isce.log"], ["r", "B", "isce.log"]] := by
  rw [crawl_eq]
  rw [show isort dirLe (siblingTree.filterMap dirOf) =
    [("A", [FSEntry.file "isce.log" goodText]), ("B", [FSEntry.file "isce.log" goodText2])] from rfl]
  rw [List.flatMap_cons, List.flatMap_cons, List.flatMap_nil]
  rw [crawl_leaf _ _ (by rfl), crawl_leaf _ _ (by rfl)]
  rfl

theorem crawl_dup : crawl ["r"] dupIdTree =
    [["r", "x", "A", "isce.log"], ["r", "y", "A", "isce.log"]] := by
  rw [crawl_eq]
  rw [show isort dirLe (dupIdTree.filterMap dirOf) =
    [("x", [FSEntry.dir "A" [FSEntry.file "isce.log" goodText]]),
     ("y", [FSEntry.dir "A" [FSEntry.file "isce.log" goodText2]])] from rfl]
  rw [List.flatMap_cons, List.flatMap_cons, List.flatMap_nil]
  rw [crawl_eq]
  rw [show isort dirLe
      (List.filterMap dirOf ("x", [FSEntry.dir "A" [FSEntry.file "isce.log" goodText]]).2) =
    [("A", [FSEntry.file "isce.log" goodText])] from rfl]
  rw [List.flatMap_cons, List.flatMap_nil]
  rw [crawl_leaf _ _ (by rfl)]
  rw [crawl_eq]
  rw [show isort dirLe
      (List.filterMap dirOf ("y", [FSEntry.dir "A" [FSEntry.file "isce.log" goodText2]]).2) =
    [("A", [FSEntry.file "isce.log" goodText2])] from rfl]
  rw [List.flatMap_cons, List.flatMap_nil]
  rw [crawl_leaf _ _ (by rfl)]
  rfl

/-! ### Claims about the derived delta (C1, C10) -/

/-- Claim C1, amended: `filter_geo_delta_secs` is the `.seconds`
component of the timedelta, i.e. the floored whole-second difference
reduced modulo 86400; it coincides with the truncated whole-second
difference exactly on differences that are non-negative and below one
day, and in particular the specification example
(`filt_start_dt = 2020-01-01 00:00:00,000`,
`geocoding_start_dt = 2020-01-01 00:05:30,500`) yields 330. -/
theorem C1_amended :
    (∀ b a : Datetime, 0 ≤ deltaUs b a → deltaUs b a < 86400000000 →
      tdSeconds b a = truncSecondsSpec b a)
    ∧ (extract goodText).map (fun f => (deriveRecord "A" f).filter_geo_delta_secs)
        = .ok 330 := by
  constructor
  · intro b a h1 h2
    unfold tdSeconds truncSecondsSpec
    rw [Int.emod_eq_of_lt h1 h2, Int.tdiv_eq_ediv h1 (by norm_num)]
  · decide

theorem C1_witness :
    0 ≤ deltaUs ⟨2020, 1, 1, 0, 5, 30, 500000⟩ ⟨2020, 1, 1, 0, 0, 0, 0⟩
    ∧ deltaUs ⟨2020, 1, 1, 0, 5, 30, 500000⟩ ⟨2020, 1, 1, 0, 0, 0, 0⟩ < 86400000000
    ∧ tdSeconds ⟨2020, 1, 1, 0, 5, 30, 500000⟩ ⟨2020, 1, 1, 0, 0, 0, 0⟩
        = truncSecondsSpec ⟨2020, 1, 1, 0, 5, 30, 500000⟩ ⟨2020, 1, 1, 0, 0, 0, 0⟩ :=
  ⟨by decide, by decide, C1_amended.1 _ _ (by decide) (by decide)⟩

/-- Claim C1 as stated is false: for timestamps more than a day apart
(here 25 hours) the code computes the difference modulo whole days
(3600), not the truncated whole-second difference (90000). -/
theorem C1_counterexample :
    tdSeconds ⟨2020, 1, 2, 1, 0, 0, 0⟩ ⟨2020, 1, 1, 0, 0, 0, 0⟩ = 3600
    ∧ truncSecondsSpec ⟨2020, 1, 2, 1, 0, 0, 0⟩ ⟨2020, 1, 1, 0, 0, 0, 0⟩ = 90000
    ∧ (3600 : Int) ≠ 90000 :=
  ⟨by decide, by decide, by decide⟩

/-- Claim C10 (confirmed): for every pair of parsed timestamps, in
either order and at any distance, the emitted `filter_geo_delta_secs`
lies in `[0, 86400)` and is the floored whole-second difference reduced
modulo 86400 (days are dropped; the value is non-negative even when
`geocoding_start_dt` precedes `filt_start_dt`). -/
theorem C10_delta_range : ∀ b a : Datetime,
    0 ≤ tdSeconds b a ∧ tdSeconds b a < 86400 ∧
    tdSeconds b a = (deltaUs b a / 1000000) % 86400 := by
  intro b a
  unfold tdSeconds
  refine ⟨?_, ?_, ?_⟩ <;> omega

/-! ### Claims about the derived coordinates (C2) -/

/-- Claim C2, amended: whenever the extracted box satisfies
`south ≤ north` and `west ≤ east`, the derived `lat` and `lon` lie in
the claimed intervals, and the concrete case east=10, west=2, north=8,
south=4 gives `lon = 6` and `lat = 6`; without the orientation
hypotheses the construction `south + |north-south|/2` can leave the
interval. -/
theorem C2_amended :
    (∀ (text id : String) (f : Fields), extract text = .ok f →
      f.south ≤ f.north → f.west ≤ f.east →
      min f.south f.north ≤ (deriveRecord id f).lat
      ∧ (deriveRecord id f).lat ≤ max f.south f.north
      ∧ min f.west f.east ≤ (deriveRecord id f).lon
      ∧ (deriveRecord id f).lon ≤ max f.west f.east)
    ∧ (extract goodText).map (fun f => ((deriveRecord "A" f).lon, (deriveRecord "A" f).lat))
        = .ok (6, 6) := by
  constructor
  · intro text id f _ hsn hwe
    have hn : (0 : ℚ) ≤ (f.north - f.south) / 2 := by linarith
    have he : (0 : ℚ) ≤ (f.east - f.west) / 2 := by linarith
    simp only [deriveRecord, abs_of_nonneg hn, abs_of_nonneg he,
      min_eq_left hsn, max_eq_right hsn, min_eq_left hwe, max_eq_right hwe]
    refine ⟨by linarith, by linarith, by linarith, by linarith⟩
  · decide

theorem C2_witness :
    min exFields.south exFields.north ≤ (deriveRecord "A" exFields).lat
    ∧ (deriveRecord "A" exFields).lat ≤ max exFields.south exFields.north
    ∧ min exFields.west exFields.east ≤ (deriveRecord "A" exFields).lon
    ∧ (deriveRecord "A" exFields).lon ≤ max exFields.west exFields.east :=
  C2_amended.1 goodText "A" exFields (by decide) (by decide) (by decide)

/-- Claim C2 as stated is false: on a log whose box has north=4 and
south=8, extraction succeeds and the derived `lat` is 10, outside
`[min(north,south), max(north,south)] = [4, 8]`. -/
theorem C2_counterexample :
    (extract swapText).map (fun f => ((deriveRecord "A" f).lat, f.north, f.south))
      = .ok (10, 4, 8)
    ∧ ¬((10 : ℚ) ≤ max 4 8) :=
  ⟨by decide, by norm_num⟩

/-! ### Claim C6: missing required fields -/

theorem okSomeNat {name : String} {o : Option (List Char)}
    (h : (getNatField name o).isOk = true) : ∃ v, o = some v := by
  cases o with
  | none => simp [getNatField, Except.isOk, Except.toBool] at h
  | some v => exact ⟨v, rfl⟩

theorem okSomeRat {name : String} {o : Option (List Char)}
    (h : (getRatField name o).isOk = true) : ∃ v, o = some v := by
  cases o with
  | none => simp [getRatField, Except.isOk, Except.toBool] at h
  | some v => exact ⟨v, rfl⟩

theorem okSomeDt {name : String} {p : List Char → Option Datetime} {o : Option (List Char)}
    (h : (getDtField name p o).isOk = true) :
    ∃ cs dt, o = some cs ∧ p cs = some dt := by
  cases o with
  | none => simp [getDtField, Except.isOk, Except.toBool] at h
  | some cs =>
    cases hp : p cs with
    | none => simp [getDtField, hp, Except.isOk, Except.toBool] at h
    | some dt => exact ⟨cs, dt, rfl, hp⟩

/-- Claim C6 (confirmed): on a log text in which exactly one required
field's pattern fails to match (every other extraction statement would
succeed), `extract` fails at that field: the error names the field whose
pattern failed, and no record is produced (the extraction is
all-or-nothing, so there is no partial result). -/
theorem C6_missing_field :
    ∀ (text : String) (f : FieldName),
      fieldSearch f text = none →
      (∀ g : FieldName, g ≠ f → stepOk g text = true) →
      extract text = .error (.missingField (fieldKey f)) := by
  intro text f hf hall
  cases f
  case alks =>
    simp only [fieldSearch] at hf
    simp [extract, hf, getNatField, getRatField, getDtField, fieldKey]
  case rlks =>
    obtain ⟨v0, h0⟩ := okSomeNat (hall .alks (by decide))
    simp only [fieldSearch] at hf h0
    simp [extract, hf, h0, getNatField, getRatField, getDtField, fieldKey]
  case east =>
    obtain ⟨v0, h0⟩ := okSomeNat (hall .alks (by decide))
    obtain ⟨v1, h1⟩ := okSomeNat (hall .rlks (by decide))
    simp only [fieldSearch] at hf h0 h1
    simp [extract, hf, h0, h1, getNatField, getRatField, getDtField, fieldKey]
  case west =>
    obtain ⟨v0, h0⟩ := okSomeNat (hall .alks (by decide))
    obtain ⟨v1, h1⟩ := okSomeNat (hall .rlks (by decide))
    obtain ⟨v2, h2⟩ := okSomeRat (hall .east (by decide))
    simp only [fieldSearch] at hf h0 h1 h2
    simp [extract, hf, h0, h1, h2, getNatField, getRatField, getDtField, fieldKey]
  case north =>
    obtain ⟨v0, h0⟩ := okSomeNat (hall .alks (by decide))
    obtain ⟨v1, h1⟩ := okSomeNat (hall .rlks (by decide))
    obtain ⟨v2, h2⟩ := okSomeRat (hall .east (by decide))
    obtain ⟨v3, h3⟩ := okSomeRat (hall .west (by decide))
    simp only [fieldSearch] at hf h0 h1 h2 h3
    simp [extract, hf, h0, h1, h2, h3, getNatField, getRatField, getDtField, fieldKey]
  case south =>
    obtain ⟨v0, h0⟩ := okSomeNat (hall .alks (by decide))
    obtain ⟨v1, h1⟩ := okSomeNat (hall .rlks (by decide))
    obtain ⟨v2, h2⟩ := okSomeRat (hall .east (by decide))
    obtain ⟨v3, h3⟩ := okSomeRat (hall .west (by decide))
    obtain ⟨v4, h4⟩ := okSomeRat (hall .north (by decide))
    simp only [fieldSearch] at hf h0 h1 h2 h3 h4
    simp [extract, hf, h0, h1, h2, h3, h4, getNatField, getRatField, getDtField, fieldKey]
  case length =>
    obtain ⟨v0, h0⟩ := okSomeNat (hall .alks (by decide))
    obtain ⟨v1, h1⟩ := okSomeNat (hall .rlks (by decide))
    obtain ⟨v2, h2⟩ := okSomeRat (hall .east (by decide))
    obtain ⟨v3, h3⟩ := okSomeRat (hall .west (by decide))
    obtain ⟨v4, h4⟩ := okSomeRat (hall .north (by decide))
    obtain ⟨v5, h5⟩ := okSomeRat (hall .south (by decide))
    simp only [fieldSearch] at hf h0 h1 h2 h3 h4 h5
    simp [extract, hf, h0, h1, h2, h3, h4, h5, getNatField, getRatField, getDtField, fieldKey]
  case width =>
    obtain ⟨v0, h0⟩ := okSomeNat (hall .alks (by decide))
    obtain ⟨v1, h1⟩ := okSomeNat (hall .rlks (by decide))
    obtain ⟨v2, h2⟩ := okSomeRat (hall .east (by decide))
    obtain ⟨v3, h3⟩ := okSomeRat (hall .west (by decide))
    obtain ⟨v4, h4⟩ := okSomeRat (hall .north (by decide))
    obtain ⟨v5, h5⟩ := okSomeRat (hall .south (by decide))
    obtain ⟨v6, h6⟩ := okSomeNat (hall .length (by decide))
    simp only [fieldSearch] at hf h0 h1 h2 h3 h4 h5 h6
    simp [extract, hf, h0, h1, h2, h3, h4, h5, h6, getNatField, getRatField, getDtField, fieldKey]
  case filt_start_dt =>
    obtain ⟨v0, h0⟩ := okSomeNat (hall .alks (by decide))
    obtain ⟨v1, h1⟩ := okSomeNat (hall .rlks (by decide))
    obtain ⟨v2, h2⟩ := okSomeRat (hall .east (by decide))
    obtain ⟨v3, h3⟩ := okSomeRat (hall .west (by decide))
    obtain ⟨v4, h4⟩ := okSomeRat (hall .north (by decide))
    obtain ⟨v5, h5⟩ := okSomeRat (hall .south (by decide))
    obtain ⟨v6, h6⟩ := okSomeNat (hall .length (by decide))
    obtain ⟨v7, h7⟩ := okSomeNat (hall .width (by decide))
    simp only [fieldSearch] at hf h0 h1 h2 h3 h4 h5 h6 h7
    simp [extract, hf, h0, h1, h2, h3, h4, h5, h6, h7, getNatField, getRatField, getDtField, fieldKey]
  case geocoding_start_dt =>
    obtain ⟨v0, h0⟩ := okSomeNat (hall .alks (by decide))
    obtain ⟨v1, h1⟩ := okSomeNat (hall .rlks (by decide))
    obtain ⟨v2, h2⟩ := okSomeRat (hall .east (by decide))
    obtain ⟨v3, h3⟩ := okSomeRat (hall .west (by decide))
    obtain ⟨v4, h4⟩ := okSomeRat (hall .north (by decide))
    obtain ⟨v5, h5⟩ := okSomeRat (hall .south (by decide))
    obtain ⟨v6, h6⟩ := okSomeNat (hall .length (by decide))
    obtain ⟨v7, h7⟩ := okSomeNat (hall .width (by decide))
    obtain ⟨c8, d8, h8, hp8⟩ := okSomeDt (hall .filt_start_dt (by decide))
    simp only [fieldSearch] at hf h0 h1 h2 h3 h4 h5 h6 h7 h8
    simp [extract, hf, h0, h1, h2, h3, h4, h5, h6, h7, h8, hp8, getNatField, getRatField, getDtField, fieldKey]
  case master_asc_node_time =>
    obtain ⟨v0, h0⟩ := okSomeNat (hall .alks (by decide))
    obtain ⟨v1, h1⟩ := okSomeNat (hall .rlks (by decide))
    obtain ⟨v2, h2⟩ := okSomeRat (hall .east (by decide))
    obtain ⟨v3, h3⟩ := okSomeRat (hall .west (by decide))
    obtain ⟨v4, h4⟩ := okSomeRat (hall .north (by decide))
    obtain ⟨v5, h5⟩ := okSomeRat (hall .south (by decide))
    obtain ⟨v6, h6⟩ := okSomeNat (hall .length (by decide))
    obtain ⟨v7, h7⟩ := okSomeNat (hall .width (by decide))
    obtain ⟨c8, d8, h8, hp8⟩ := okSomeDt (hall .filt_start_dt (by decide))
    obtain ⟨c9, d9, h9, hp9⟩ := okSomeDt (hall .geocoding_start_dt (by decide))
    simp only [fieldSearch] at hf h0 h1 h2 h3 h4 h5 h6 h7 h8 h9
    simp [extract, hf, h0, h1, h2, h3, h4, h5, h6, h7, h8, h9, hp8, hp9, getNatField, getRatField, getDtField, fieldKey]
  case slave_asc_node_time =>
    obtain ⟨v0, h0⟩ := okSomeNat (hall .alks (by decide))
    obtain ⟨v1, h1⟩ := okSomeNat (hall .rlks (by decide))
    obtain ⟨v2, h2⟩ := okSomeRat (hall .east (by decide))
    obtain ⟨v3, h3⟩ := okSomeRat (hall .west (by decide))
    obtain ⟨v4, h4⟩ := okSomeRat (hall .north (by decide))
    obtain ⟨v5, h5⟩ := okSomeRat (hall .south (by decide))
    obtain ⟨v6, h6⟩ := okSomeNat (hall .length (by decide))
    obtain ⟨v7, h7⟩ := okSomeNat (hall .width (by decide))
    obtain ⟨c8, d8, h8, hp8⟩ := okSomeDt (hall .filt_start_dt (by decide))
    obtain ⟨c9, d9, h9, hp9⟩ := okSomeDt (hall .geocoding_start_dt (by decide))
    obtain ⟨c10, d10, h10, hp10⟩ := okSomeDt (hall .master_asc_node_time (by decide))
    simp only [fieldSearch] at hf h0 h1 h2 h3 h4 h5 h6 h7 h8 h9 h10
    simp [extract, hf, h0, h1, h2, h3, h4, h5, h6, h7, h8, h9, h10, hp8, hp9, hp10, getNatField, getRatField, getDtField, fieldKey]

theorem C6_witness :
    fieldSearch .width badText = none
    ∧ extract badText = .error (.missingField (fieldKey .width)) :=
  ⟨by decide, C6_missing_field badText .width (by decide) (by decide)⟩

/-! ### Claims about the aggregation loop (C3, C4, C5) -/

/-- Claim C3, amended: every failure while reading, extracting or
deriving one file is caught at the per-file boundary: the file
contributes no row, a diagnostic (source path and failure detail) is
recorded, and the loop continues — the rows are exactly the successful
parses and the diagnostics exactly the failed ones.  In the concrete
scenario of one valid and one malformed `isce.log` the run completes
with exactly one row and one diagnostic.  (The run as a whole still
aborts after the loop when no file at all parsed, see C4.) -/
theorem C3_amended :
    (∀ (fs : List String → Option String) (ps : List (List String)),
      collect fs ps =
        (ps.filterMap (fun p => (parse fs p).toOption),
         ps.filterMap (fun p =>
           match parse fs p with
           | .error e => some (p, e)
           | .ok _ => none)))
    ∧ main ["r"] mixedTree =
        .ok ([deriveRecord "A" exFields],
             [(["r", "B", "isce.log"], ParseErr.missingField "width")]) := by
  constructor
  · intro fs ps
    induction ps with
    | nil => rfl
    | cons p ps ih =>
      simp only [collect, List.filterMap_cons]
      cases h : parse fs p with
      | ok rec => simp [h, ih, Except.toOption]
      | error e => simp [h, ih, Except.toOption]
  · simp only [main]
    rw [crawl_mixed]
    decide

/-- Claim C3 as stated ("one bad file never aborts the run") is false in
the corner where the only discovered file is malformed: the loop
finishes, but the subsequent `set_index` on the empty frame raises, so
the run aborts. -/
theorem C3_counterexample :
    main ["r"] badOnlyTree = .error .keyError := by
  simp only [main]
  rw [crawl_badOnly]
  decide

/-- Claim C4: with zero matching files `all_data` is empty,
`pd.DataFrame([])` has no `id` column, and `set_index('id')` raises
`KeyError` — the run does not complete successfully, contrary to the
specification. -/
theorem C4_empty_crash :
    ∀ (r : List String) (es : List FSEntry), crawl r es = [] →
      main r es = .error .keyError := by
  intro r es h
  simp only [main, h]
  rfl

theorem C4_witness :
    crawl ["r"] ([] : List FSEntry) = [] ∧ main ["r"] [] = .error .keyError :=
  ⟨crawl_nil ["r"], C4_empty_crash ["r"] [] (crawl_nil ["r"])⟩

/-- Claim C5, amended: duplicate ids are not overwritten: the collected
rows are one per successful parse (so the persisted index may repeat a
key), and in the concrete run with two files whose parents are both
named `A` the table has two rows indexed `A` with each file's own data
retained in traversal order. -/
theorem C5_amended :
    (∀ (fs : List String → Option String) (ps : List (List String)),
      (collect fs ps).1.length = ps.countP (fun p => (parse fs p).isOk))
    ∧ (main ["r"] dupIdTree).map (fun x => (x.1.map (·.id), x.1.map (·.width)))
        = .ok (["A", "A"], [200, 300]) := by
  constructor
  · intro fs ps
    induction ps with
    | nil => rfl
    | cons p ps ih =>
      simp only [collect, List.countP_cons]
      cases h : parse fs p with
      | ok rec => simp [h, ih, Except.isOk, Except.toBool]
      | error e => simp [h, ih, Except.isOk, Except.toBool]
  · simp only [main]
    rw [crawl_dup]
    decide

/-- Claim C5 as stated is false: with two source files yielding id `A`,
the later row does not overwrite the earlier one — both rows are in the
persisted table (the earlier file's width 200 survives next to the
later file's 300), and the keys of the final table are not unique. -/
theorem C5_counterexample :
    (main ["r"] dupIdTree).map (fun x => (x.1.map (·.id), x.1.map (·.width)))
      = .ok (["A", "A"], [200, 300])
    ∧ ¬(["A", "A"] : List String).Nodup := by
  constructor
  · simp only [main]
    rw [crawl_dup]
    decide
  · decide

/-! ### Claim C8: the id is the immediate parent directory name -/

theorem crawl_id_parent :
    ∀ (N : Nat) (es : List FSEntry), sizeOf es ≤ N →
      ∀ (r p : List String), r ≠ [] → p ∈ crawl r es →
        ∃ pre d, p = pre ++ [d, "isce.log"] ∧ pathId p = d := by
  intro N
  induction N with
  | zero =>
    intro es h
    exact absurd h (by cases es <;> simp_arith)
  | succ N ih =>
    intro es hN r p hr hp
    rw [crawl_eq] at hp
    rcases List.mem_append.mp hp with hp | hp
    · obtain ⟨f, hf, rfl⟩ := List.mem_map.mp hp
      have hf2 := List.mem_filter.mp hf
      have hfe : f = "isce.log" := by simpa using hf2.2
      subst hfe
      refine ⟨r.dropLast, r.getLast hr, ?_, ?_⟩
      · conv_lhs => rw [← List.dropLast_append_getLast hr]
        simp
      · unfold pathId
        rw [List.dropLast_concat]
        conv_lhs => rw [← List.dropLast_append_getLast hr]
        rw [List.getLastD_concat]
    · rw [List.mem_flatMap] at hp
      obtain ⟨d, hd, hpd⟩ := hp
      have hsz : sizeOf d.2 < sizeOf es := sizeOf_of_mem_dirs (mem_isort hd)
      exact ih d.2 (by omega) (r ++ [d.1]) p (by simp) hpd

/-- Claim C8 (confirmed): every path the crawler yields ends in
`<parent>/isce.log` and the record id is exactly that parent (never a
higher ancestor); for two logs under sibling directories `A` and `B` the
table rows are indexed `A` and `B`. -/
theorem C8_parent_id :
    (∀ (r : List String) (es : List FSEntry) (p : List String), r ≠ [] →
      p ∈ crawl r es → ∃ pre d, p = pre ++ [d, "isce.log"] ∧ pathId p = d)
    ∧ (main ["r"] siblingTree).map (fun x => x.1.map (·.id)) = .ok ["A", "B"] := by
  constructor
  · intro r es p hr hp
    exact crawl_id_parent (sizeOf es) es (le_refl _) r p hr hp
  · simp only [main]
    rw [crawl_sibling]
    decide

theorem C8_witness :
    ∃ pre d, (["r", "A", "isce.log"] : List String) = pre ++ [d, "isce.log"]
      ∧ pathId ["r", "A", "isce.log"] = d :=
  C8_parent_id.1 ["r"] siblingTree ["r", "A", "isce.log"] (by decide)
    (by rw [crawl_sibling]; decide)

/-! ### Claim C9: the shape of the bounding-box numeric literals -/

theorem digit_not_space {c : Char} (h : isDigitC c = true) : isSpaceC c = false := by
  simp only [isDigitC, Bool.and_eq_true, decide_eq_true_eq] at h
  simp only [isSpaceC, Bool.or_eq_false_iff, beq_eq_false_iff_ne, ne_eq]
  omega

theorem digit_ne_of (c d : Char) (h : isDigitC c = true) (hd : isDigitC d = false) :
    c ≠ d := by
  intro e
  subst e
  rw [h] at hd
  cases hd

theorem matchPat_wild_append :
    ∀ (l rest : List Char), '\n' ∉ l →
      matchPat (l.map (fun c => if c = '.' then none else some c)) (l ++ rest) = some rest := by
  intro l
  induction l with
  | nil => intro rest _; rfl
  | cons c cs ih =>
    intro rest h
    rw [List.mem_cons, not_or] at h
    simp only [List.map_cons, List.cons_append]
    by_cases hc : c = '.'
    · subst hc
      simp only [if_pos rfl, matchPat, if_neg (by decide : ¬('.' : Char) = '\n')]
      exact ih rest h.2
    · simp only [if_neg hc, matchPat, if_pos rfl]
      exact ih rest h.2

theorem matchPat_self (key : String) (rest : List Char) (hk : '\n' ∉ key.data) :
    matchPat (wpat key) (key.data ++ rest) = some rest := by
  simpa [wpat] using matchPat_wild_append key.data rest hk

theorem takeWhile_app (p : Char → Bool) (w rest : List Char)
    (h1 : ∀ c ∈ w, p c = true) (h2 : headNot p rest) :
    (w ++ rest).takeWhile p = w := by
  induction w with
  | nil =>
    cases rest with
    | nil => rfl
    | cons c t =>
      have hc : p c = false := by simpa [headNot] using h2
      simp [List.takeWhile_cons, hc]
  | cons c w ih =>
    simp only [List.cons_append, List.takeWhile_cons, h1 c (by simp)]
    simpa using ih (fun d hd => h1 d (by simp [hd]))

theorem ws1_space (rest : List Char) (h : headNot isSpaceC rest) :
    ws1 (' ' :: rest) = some rest := by
  have ht : (' ' :: rest).takeWhile isSpaceC = [' '] := by
    have := takeWhile_app isSpaceC [' '] rest (by decide) h
    simpa using this
  simp [ws1, ht]

theorem searchTop_of_match {m : List Char → Option (List Char)} {cs r : List Char}
    (h : m cs = some r) : searchTop m cs = some r := by
  simp [searchTop, h]

theorem floatValMatcher_app (key : String) (hk : '\n' ∉ key.data) (tail : List Char)
    (htail : headNot isSpaceC tail) :
    floatValMatcher key (key.data ++ ' ' :: '=' :: ' ' :: tail) = floatGroup tail := by
  have h1 : ws1 (' ' :: '=' :: ' ' :: tail) = some ('=' :: ' ' :: tail) :=
    ws1_space _ (by rfl)
  have h2 : matchPat (wpat "=") ('=' :: ' ' :: tail) = some (' ' :: tail) := rfl
  have h3 : ws1 (' ' :: tail) = some tail := ws1_space tail htail
  unfold floatValMatcher
  simp only [matchPat_self key _ hk, h1, h2, h3]

theorem splitSign_nosign {cs : List Char}
    (h : match cs with
         | c :: _ => ¬(c = '-') ∧ ¬(c = '+')
         | [] => True) :
    splitSign cs = ([], cs) := by
  cases cs with
  | nil => rfl
  | cons c rest =>
    simp only [splitSign]
    rw [if_neg]
    simp only [Bool.or_eq_true, decide_eq_true_eq]
    exact fun hc => hc.elim h.1 h.2

theorem floatGroup_dec (sgn ip fp rest' : List Char)
    (hs : sgn = [] ∨ sgn = ['-'] ∨ sgn = ['+'])
    (hip : ∀ c ∈ ip, isDigitC c = true)
    (hfp0 : fp ≠ []) (hfp : ∀ c ∈ fp, isDigitC c = true) :
    floatGroup (sgn ++ ip ++ '.' :: fp ++ '\n' :: rest') = some (sgn ++ ip ++ '.' :: fp) := by
  have ht1 : (ip ++ '.' :: (fp ++ '\n' :: rest')).takeWhile isDigitC = ip :=
    takeWhile_app _ _ _ hip (by rfl)
  have ht2 : (fp ++ '\n' :: rest').takeWhile isDigitC = fp :=
    takeWhile_app _ _ _ hfp (by rfl)
  have hfpe : fp.isEmpty = false := by
    cases fp with
    | nil => exact absurd rfl hfp0
    | cons a b => rfl
  have hsplit : splitSign (sgn ++ (ip ++ ('.' :: (fp ++ '\n' :: rest'))))
      = (sgn, ip ++ ('.' :: (fp ++ '\n' :: rest'))) := by
    rcases hs with rfl | rfl | rfl
    · rw [List.nil_append]
      apply splitSign_nosign
      cases ip with
      | nil => exact ⟨by decide, by decide⟩
      | cons c ipt =>
        exact ⟨digit_ne_of c '-' (hip c (by simp)) (by decide),
               digit_ne_of c '+' (hip c (by simp)) (by decide)⟩
    · simp [splitSign]
    · simp [splitSign]
  simp only [List.cons_append, List.append_assoc]
  simp only [floatGroup, hsplit, ht1, List.drop_left, afterIntPart]
  simp [ht2, hfpe]

theorem floatGroup_int (ds rest' : List Char) (h0 : ds ≠ [])
    (hd : ∀ c ∈ ds, isDigitC c = true) :
    floatGroup (ds ++ '\n' :: rest') = some ds := by
  have ht : (ds ++ '\n' :: rest').takeWhile isDigitC = ds := takeWhile_app _ _ _ hd (by rfl)
  have hde : ds.isEmpty = false := by
    cases ds with
    | nil => exact absurd rfl h0
    | cons a b => rfl
  have hsplit : splitSign (ds ++ '\n' :: rest') = ([], ds ++ '\n' :: rest') := by
    apply splitSign_nosign
    cases ds with
    | nil => exact ⟨by decide, by decide⟩
    | cons c dt =>
      exact ⟨digit_ne_of c '-' (hd c (by simp)) (by decide),
             digit_ne_of c '+' (hd c (by simp)) (by decide)⟩
  simp only [floatGroup, hsplit, ht, List.drop_left, afterIntPart,
    if_neg (show ¬('\n' : Char) = '.' by decide)]
  simp [digits1, ht, hde]

theorem ratOfUnsigned_dec (ip fp : List Char) (hip : ∀ c ∈ ip, isDigitC c = true) :
    ratOfUnsigned (ip ++ '.' :: fp)
      = (digitsToNat ip : ℚ) + (digitsToNat fp : ℚ) / (10 : ℚ) ^ fp.length := by
  have ht : (ip ++ '.' :: fp).takeWhile isDigitC = ip := takeWhile_app _ _ _ hip (by rfl)
  simp [ratOfUnsigned, ht, List.drop_left]

theorem ratOfUnsigned_int (ds : List Char) (hd : ∀ c ∈ ds, isDigitC c = true) :
    ratOfUnsigned ds = (digitsToNat ds : ℚ) := by
  have ht : ds.takeWhile isDigitC = ds := by
    have := takeWhile_app _ ds [] hd trivial
    simpa using this
  simp [ratOfUnsigned, ht, List.drop_length]

theorem ratOfFloat_dec (sgn ip fp : List Char)
    (hs : sgn = [] ∨ sgn = ['-'] ∨ sgn = ['+'])
    (hip : ∀ c ∈ ip, isDigitC c = true) :
    ratOfFloatChars (sgn ++ ip ++ '.' :: fp)
      = (if sgn = ['-'] then (-1 : ℚ) else 1)
          * ((digitsToNat ip : ℚ) + (digitsToNat fp : ℚ) / (10 : ℚ) ^ fp.length) := by
  rcases hs with rfl | rfl | rfl
  · cases ip with
    | nil =>
      simp only [List.nil_append, ratOfFloatChars,
        if_neg (by decide : ¬('.' : Char) = '-'), if_neg (by decide : ¬('.' : Char) = '+')]
      rw [show ('.' :: fp) = ([] ++ '.' :: fp) from rfl, ratOfUnsigned_dec [] fp (by simp)]
      simp
    | cons c ipt =>
      have hc1 : ¬(c = '-') := digit_ne_of c '-' (hip c (by simp)) (by decide)
      have hc2 : ¬(c = '+') := digit_ne_of c '+' (hip c (by simp)) (by decide)
      simp only [List.nil_append, List.cons_append, ratOfFloatChars, if_neg hc1, if_neg hc2]
      rw [show (c :: (ipt ++ '.' :: fp)) = ((c :: ipt) ++ '.' :: fp) from rfl,
        ratOfUnsigned_dec (c :: ipt) fp hip]
      simp
  · simp only [List.cons_append, List.nil_append, ratOfFloatChars, if_pos rfl]
    rw [ratOfUnsigned_dec ip fp hip]
    simp
  · simp only [List.cons_append, List.nil_append, ratOfFloatChars,
      if_neg (by decide : ¬('+' : Char) = '-'), if_pos rfl]
    rw [ratOfUnsigned_dec ip fp hip]
    simp

theorem ratOfFloat_int (ds : List Char) (hd : ∀ c ∈ ds, isDigitC c = true) :
    ratOfFloatChars ds = (digitsToNat ds : ℚ) := by
  cases ds with
  | nil => rfl
  | cons c dt =>
    have hc1 : ¬(c = '-') := digit_ne_of c '-' (hd c (by simp)) (by decide)
    have hc2 : ¬(c = '+') := digit_ne_of c '+' (hd c (by simp)) (by decide)
    simp only [ratOfFloatChars, if_neg hc1, if_neg hc2]
    exact ratOfUnsigned_int (c :: dt) hd

theorem floatLine_spec (key : String) (hk : '\n' ∉ key.data) :
    (∀ sgn ip fp rest, (sgn = [] ∨ sgn = ['-'] ∨ sgn = ['+']) →
      (∀ c ∈ ip, isDigitC c = true) → fp ≠ [] → (∀ c ∈ fp, isDigitC c = true) →
      searchTop (floatValMatcher key)
          (key.data ++ ' ' :: '=' :: ' ' :: (sgn ++ ip ++ '.' :: fp ++ '\n' :: rest))
        = some (sgn ++ ip ++ '.' :: fp)
      ∧ ratOfFloatChars (sgn ++ ip ++ '.' :: fp)
        = (if sgn = ['-'] then (-1 : ℚ) else 1)
            * ((digitsToNat ip : ℚ) + (digitsToNat fp : ℚ) / (10 : ℚ) ^ fp.length))
    ∧ (∀ ds rest, ds ≠ [] → (∀ c ∈ ds, isDigitC c = true) →
      searchTop (floatValMatcher key) (key.data ++ ' ' :: '=' :: ' ' :: (ds ++ '\n' :: rest))
        = some ds
      ∧ ratOfFloatChars ds = (digitsToNat ds : ℚ)) := by
  constructor
  · intro sgn ip fp rest hs hip hfp0 hfp
    have htail : headNot isSpaceC (sgn ++ ip ++ '.' :: fp ++ '\n' :: rest) := by
      rcases hs with rfl | rfl | rfl
      · cases ip with
        | nil => exact (by rfl)
        | cons c ipt => simpa [headNot] using digit_not_space (hip c (by simp))
      · exact (by rfl)
      · exact (by rfl)
    refine ⟨searchTop_of_match ?_, ratOfFloat_dec sgn ip fp hs hip⟩
    rw [floatValMatcher_app key hk _ htail]
    exact floatGroup_dec sgn ip fp rest hs hip hfp0 hfp
  · intro ds rest h0 hd
    have htail : headNot isSpaceC (ds ++ '\n' :: rest) := by
      cases ds with
      | nil => exact absurd rfl h0
      | cons c dt => simpa [headNot] using digit_not_space (hd c (by simp))
    refine ⟨searchTop_of_match ?_, ratOfFloat_int ds hd⟩
    rw [floatValMatcher_app key hk _ htail]
    exact floatGroup_int ds rest h0 hd

/-- Claim C9, amended: on a line `geocode.East = <num>` (likewise West,
North, South) the pattern matches and `float` converts exactly when the
literal is a decimal with optional sign (`[-+]?\d*\.\d+`) or an
unsigned integer (`\d+`); a signed integer without a decimal point is
not matched (see the counterexample). -/
theorem C9_amended :
    ∀ mp ∈ [("geocode.East", EAST_RE), ("geocode.West", WEST_RE),
        ("geocode.North", NORTH_RE), ("geocode.South", SOUTH_RE)],
      (∀ sgn ip fp rest, (sgn = [] ∨ sgn = ['-'] ∨ sgn = ['+']) →
        (∀ c ∈ ip, isDigitC c = true) → fp ≠ [] → (∀ c ∈ fp, isDigitC c = true) →
        searchTop mp.2
            (mp.1.data ++ ' ' :: '=' :: ' ' :: (sgn ++ ip ++ '.' :: fp ++ '\n' :: rest))
          = some (sgn ++ ip ++ '.' :: fp)
        ∧ ratOfFloatChars (sgn ++ ip ++ '.' :: fp)
          = (if sgn = ['-'] then (-1 : ℚ) else 1)
              * ((digitsToNat ip : ℚ) + (digitsToNat fp : ℚ) / (10 : ℚ) ^ fp.length))
      ∧ (∀ ds rest, ds ≠ [] → (∀ c ∈ ds, isDigitC c = true) →
        searchTop mp.2 (mp.1.data ++ ' ' :: '=' :: ' ' :: (ds ++ '\n' :: rest)) = some ds
        ∧ ratOfFloatChars ds = (digitsToNat ds : ℚ)) := by
  intro mp hmp
  simp only [List.mem_cons, List.not_mem_nil, or_false] at hmp
  have hsplit : mp.2 = floatValMatcher mp.1 ∧ '\n' ∉ mp.1.data := by
    rcases hmp with rfl | rfl | rfl | rfl
    · exact ⟨rfl, by decide⟩
    · exact ⟨rfl, by decide⟩
    · exact ⟨rfl, by decide⟩
    · exact ⟨rfl, by decide⟩
  rw [hsplit.1]
  exact floatLine_spec mp.1 hsplit.2

theorem C9_witness :
    searchTop EAST_RE
        ("geocode.East".data ++ ' ' :: '=' :: ' ' :: (['-'] ++ ['5'] ++ '.' :: ['0'] ++ '\n' :: []))
      = some (['-'] ++ ['5'] ++ '.' :: ['0'])
    ∧ ratOfFloatChars (['-'] ++ ['5'] ++ '.' :: ['0'])
      = (if (['-'] : List Char) = ['-'] then (-1 : ℚ) else 1)
          * ((digitsToNat ['5'] : ℚ) + (digitsToNat ['0'] : ℚ) / (10 : ℚ) ^ (['0'] : List Char).length) :=
  (C9_amended ("geocode.East", EAST_RE) (by exact List.mem_cons_self _ _)).1
    ['-'] ['5'] ['0'] [] (Or.inr (Or.inl rfl)) (by decide) (by decide) (by decide)

/-- Claim C9 as stated is false for signed integers: the line
`geocode.East = -5` does not match (the first alternative requires a
decimal point and the second allows no sign), so extraction of `east`
fails on such a log. -/
theorem C9_counterexample :
    searchTop EAST_RE "geocode.East = -5\n".data = none
    ∧ getRatField "east" (searchTop EAST_RE "geocode.East = -5\n".data)
        = .error (.missingField "east") :=
  ⟨by decide, by decide⟩

/-! ### Claim C7: the crawler yields exactly the `isce.log` files, in a
listing-order-independent sequence -/

theorem crawl_mem_aux :
    ∀ (N : Nat) (es : List FSEntry), sizeOf es ≤ N →
      ∀ (r p : List String), p ∈ crawl r es ↔ ∃ q, p = r ++ q ∧ HasLog es q := by
  intro N
  induction N with
  | zero =>
    intro es h
    exact absurd h (by cases es <;> simp_arith)
  | succ N ih =>
    intro es hN r p
    rw [crawl_eq]
    constructor
    · intro hp
      rcases List.mem_append.mp hp with hp | hp
      · obtain ⟨f, hf, rfl⟩ := List.mem_map.mp hp
        have hf2 := List.mem_filter.mp hf
        have hfe : f = "isce.log" := by simpa using hf2.2
        subst hfe
        have hmem : "isce.log" ∈ es.filterMap fileNameOf := mem_isort hf2.1
        obtain ⟨e, he, hfe2⟩ := List.mem_filterMap.mp hmem
        cases e with
        | dir n sub => simp [fileNameOf] at hfe2
        | file n c =>
          simp only [fileNameOf, Option.some.injEq] at hfe2
          subst hfe2
          exact ⟨["isce.log"], rfl, HasLog.file he⟩
      · rw [List.mem_flatMap] at hp
        obtain ⟨d, hd, hpd⟩ := hp
        have hdm : d ∈ es.filterMap dirOf := mem_isort hd
        have hsz : sizeOf d.2 < sizeOf es := sizeOf_of_mem_dirs hdm
        obtain ⟨q, rfl, hq⟩ := (ih d.2 (by omega) (r ++ [d.1]) _).mp hpd
        obtain ⟨e, he, hde⟩ := List.mem_filterMap.mp hdm
        cases e with
        | file n c => simp [dirOf] at hde
        | dir n sub =>
          simp only [dirOf, Option.some.injEq] at hde
          subst hde
          exact ⟨n :: q, by simp, HasLog.dir he hq⟩
    · rintro ⟨q, rfl, hq⟩
      cases hq with
      | file hmem =>
        apply List.mem_append.mpr
        left
        apply List.mem_map.mpr
        refine ⟨"isce.log", ?_, rfl⟩
        apply List.mem_filter.mpr
        exact ⟨(isort_perm _ _).mem_iff.mpr (List.mem_filterMap.mpr ⟨_, hmem, rfl⟩), by simp⟩
      | @dir _ n sub q' hmem hsub =>
        apply List.mem_append.mpr
        right
        rw [List.mem_flatMap]
        have hdm : (n, sub) ∈ es.filterMap dirOf := List.mem_filterMap.mpr ⟨_, hmem, rfl⟩
        have hsz : sizeOf sub < sizeOf es := by
          have := sizeOf_of_mem_dirs hdm
          simpa using this
        refine ⟨(n, sub), (isort_perm _ _).mem_iff.mpr hdm, ?_⟩
        apply (ih sub (by omega) (r ++ [n]) _).mpr
        exact ⟨q', by simp, hsub⟩

theorem shuffledPW_fileNames :
    ∀ {l1 l2 : List FSEntry}, ShuffledPW l1 l2 →
      l1.filterMap fileNameOf = l2.filterMap fileNameOf := by
  intro l1
  induction l1 with
  | nil =>
    intro l2 h
    cases h
    rfl
  | cons e l1t ih =>
    intro l2 h
    cases h with
    | cons he htail =>
      cases he with
      | file n c => simp [List.filterMap_cons, fileNameOf, ih htail]
      | dir n hsub => simp [List.filterMap_cons, fileNameOf, ih htail]

theorem shuffledPW_dirs :
    ∀ {l1 l2 : List FSEntry}, ShuffledPW l1 l2 →
      List.Forall₂ dirRel (l1.filterMap dirOf) (l2.filterMap dirOf) := by
  intro l1
  induction l1 with
  | nil =>
    intro l2 h
    cases h
    exact List.Forall₂.nil
  | cons e l1t ih =>
    intro l2 h
    cases h with
    | cons he htail =>
      cases he with
      | file n c => simpa [List.filterMap_cons, dirOf] using ih htail
      | dir n hsub =>
        simp only [List.filterMap_cons, dirOf]
        exact List.Forall₂.cons ⟨rfl, hsub⟩ (ih htail)

theorem forall₂_perm_right {α β : Type} {R : α → β → Prop} :
    ∀ {l : List α} {s s' : List β}, List.Forall₂ R l s → s.Perm s' →
      ∃ l', l.Perm l' ∧ List.Forall₂ R l' s' := by
  intro l s s' h hp
  induction hp generalizing l with
  | nil => exact ⟨l, List.Perm.refl l, h⟩
  | cons x _ ih =>
    cases h with
    | cons hR htail =>
      obtain ⟨l', hpl, hf⟩ := ih htail
      exact ⟨_ :: l', List.Perm.cons _ hpl, List.Forall₂.cons hR hf⟩
  | swap x y t =>
    cases h with
    | cons hR1 h2 =>
      cases h2 with
      | cons hR2 h3 =>
        exact ⟨_, List.Perm.swap _ _ _, List.Forall₂.cons hR2 (List.Forall₂.cons hR1 h3)⟩
  | trans _ _ ih1 ih2 =>
    obtain ⟨l1, hp1, hf1⟩ := ih1 h
    obtain ⟨l2, hp2, hf2⟩ := ih2 hf1
    exact ⟨l2, hp1.trans hp2, hf2⟩

theorem forall₂_keys {l s : List (String × List FSEntry)}
    (h : List.Forall₂ dirRel l s) : l.map Prod.fst = s.map Prod.fst := by
  induction h with
  | nil => rfl
  | cons hR _ ih => simp [List.map_cons, hR.1, ih]

theorem dirKey_mem_names {es : List FSEntry} {x : String}
    (hx : x ∈ (es.filterMap dirOf).map Prod.fst) : x ∈ es.map entryName := by
  obtain ⟨p, hp, rfl⟩ := List.mem_map.mp hx
  obtain ⟨e, he, hde⟩ := List.mem_filterMap.mp hp
  cases e with
  | file n c => simp [dirOf] at hde
  | dir n sub =>
    simp only [dirOf, Option.some.injEq] at hde
    subst hde
    exact List.mem_map.mpr ⟨_, he, rfl⟩

theorem nodup_dirKeys {es : List FSEntry} (h : (es.map entryName).Nodup) :
    ((es.filterMap dirOf).map Prod.fst).Nodup := by
  induction es with
  | nil => simp
  | cons e es ih =>
    rw [List.map_cons, List.nodup_cons] at h
    cases e with
    | file n c => simpa [List.filterMap_cons, dirOf] using ih h.2
    | dir n sub =>
      simp only [List.filterMap_cons, dirOf, List.map_cons, List.nodup_cons]
      exact ⟨fun hmem => h.1 (by simpa [entryName] using dirKey_mem_names hmem), ih h.2⟩

theorem ndAll_mem {es : List FSEntry} {e : FSEntry} (h : NdAll es) (he : e ∈ es) :
    NdE e := by
  induction es with
  | nil => cases he
  | cons a es ih =>
    cases h with
    | cons ha htail =>
      rcases List.mem_cons.mp he with rfl | he2
      · exact ha
      · exact ih htail he2

theorem alignSorted :
    ∀ (s1 s3 : List (String × List FSEntry)),
      (∃ l2, s1.Perm l2 ∧ List.Forall₂ dirRel l2 s3) →
      s1.Pairwise (fun a b => dirLe a b = true) →
      s3.Pairwise (fun a b => dirLe a b = true) →
      (s1.map Prod.fst).Nodup →
      List.Forall₂ dirRel s1 s3 := by
  intro s1
  induction s1 with
  | nil =>
    rintro s3 ⟨l2, hperm, hf⟩ _ _ _
    have hl2 : l2 = [] := (List.Perm.eq_nil hperm.symm)
    subst hl2
    cases hf
    exact List.Forall₂.nil
  | cons a s1' ih =>
    rintro s3 ⟨l2, hperm, hf⟩ hs1 hs3 hnd
    cases l2 with
    | nil => simpa using List.Perm.eq_nil hperm
    | cons a2 l2' =>
      cases hf with
      | cons hR hf' =>
        rename_i b s3'
        have hkeys : (a :: s1').map Prod.fst = (b :: s3').map Prod.fst := by
          apply sorted_perm_eq (fun _ _ h1 h2 => strLe_antisymm h1 h2)
          · exact (hperm.map Prod.fst).trans
              (forall₂_keys (List.Forall₂.cons hR hf') ▸ List.Perm.refl _)
          · exact List.Pairwise.map Prod.fst (fun x y hxy => hxy) hs1
          · exact List.Pairwise.map Prod.fst (fun x y hxy => hxy) hs3
        have hab : a.1 = b.1 := by
          simpa using congrArg (List.headD · "") hkeys
        have ha2 : a = a2 := by
          have hmem : a ∈ a2 :: l2' := hperm.mem_iff.mp (by simp)
          have hnd2 : ((a2 :: l2').map Prod.fst).Nodup :=
            ((hperm.map Prod.fst).nodup_iff).mp hnd
          exact List.inj_on_of_nodup_map hnd2 hmem (by simp) (hab.trans hR.1.symm)
        subst ha2
        refine List.Forall₂.cons ⟨hab, hR.2⟩ ?_
        apply ih
        · exact ⟨l2', hperm.cons_inv, hf'⟩
        · exact (List.pairwise_cons.mp hs1).2
        · exact (List.pairwise_cons.mp hs3).2
        · exact (List.nodup_cons.mp (by simpa using hnd)).2

theorem flatMap_crawl_congr (N : Nat)
    (hIH : ∀ (es2' : List FSEntry), sizeOf es2' ≤ N →
      ∀ (es1' : List FSEntry) (r' : List String), ShuffledL es1' es2' → NdTop es1' →
        crawl r' es1' = crawl r' es2') :
    ∀ {s1 s3 : List (String × List FSEntry)}, List.Forall₂ dirRel s1 s3 →
      (∀ p ∈ s1, NdTop p.2) → (∀ q ∈ s3, sizeOf q.2 ≤ N) →
      ∀ r, s1.flatMap (fun d => crawl (r ++ [d.1]) d.2)
        = s3.flatMap (fun d => crawl (r ++ [d.1]) d.2) := by
  intro s1 s3 hf
  induction hf with
  | nil => intro _ _ _; rfl
  | cons hR htail ihtail =>
    intro h1 h3 r
    rename_i p q s1t s3t
    simp only [List.flatMap_cons]
    have hhead : crawl (r ++ [p.1]) p.2 = crawl (r ++ [q.1]) q.2 := by
      rw [hR.1]
      exact hIH q.2 (h3 q (by simp)) p.2 (r ++ [q.1]) hR.2 (h1 p (by simp))
    rw [hhead, ihtail (fun x hx => h1 x (by simp [hx])) (fun x hx => h3 x (by simp [hx])) r]

theorem crawl_shuffled_aux :
    ∀ (N : Nat) (es2 : List FSEntry), sizeOf es2 ≤ N →
      ∀ (es1 : List FSEntry) (r : List String), ShuffledL es1 es2 → NdTop es1 →
        crawl r es1 = crawl r es2 := by
  intro N
  induction N with
  | zero =>
    intro es2 h
    exact absurd h (by cases es2 <;> simp_arith)
  | succ N ih =>
    intro es2 hN es1 r hsh hnd
    obtain ⟨hperm, hpw⟩ := hsh
    rename_i mid
    rw [crawl_eq, crawl_eq]
    have hfiles : isort strLe (es1.filterMap fileNameOf)
        = isort strLe (es2.filterMap fileNameOf) := by
      apply sorted_perm_eq (fun _ _ h1 h2 => strLe_antisymm h1 h2)
      · refine (isort_perm _ _).trans (((hperm.filterMap fileNameOf).trans ?_).trans
          (isort_perm _ _).symm)
        rw [shuffledPW_fileNames hpw]
      · exact sorted_isort strLe_total (fun _ _ _ h1 h2 => strLe_trans h1 h2) _
      · exact sorted_isort strLe_total (fun _ _ _ h1 h2 => strLe_trans h1 h2) _
    rw [hfiles]
    congr 1
    have halign : List.Forall₂ dirRel
        (isort dirLe (es1.filterMap dirOf)) (isort dirLe (es2.filterMap dirOf)) := by
      apply alignSorted
      · obtain ⟨l2, hpl, hfl⟩ :=
          forall₂_perm_right (shuffledPW_dirs hpw) (isort_perm dirLe (es2.filterMap dirOf)).symm
        exact ⟨l2, ((isort_perm _ _).trans (hperm.filterMap dirOf)).trans hpl, hfl⟩
      · exact sorted_isort dirLe_total (fun _ _ _ h1 h2 => dirLe_trans h1 h2) _
      · exact sorted_isort dirLe_total (fun _ _ _ h1 h2 => dirLe_trans h1 h2) _
      · exact ((isort_perm _ _).map Prod.fst).nodup_iff.mpr (nodup_dirKeys hnd.1)
    apply flatMap_crawl_congr N ih halign
    · intro p hp
      obtain ⟨e, he, hde⟩ := List.mem_filterMap.mp (mem_isort hp)
      cases e with
      | file n c => simp [dirOf] at hde
      | dir n sub =>
        simp only [dirOf, Option.some.injEq] at hde
        subst hde
        cases ndAll_mem hnd.2 he with
        | dir hnodup hall => exact ⟨hnodup, hall⟩
    · intro q hq
      have := sizeOf_of_mem_dirs (mem_isort hq)
      omega

/-- Claim C7 (confirmed): the crawler yields exactly the paths of files
named `isce.log` in the tree, and its output is invariant under the
order in which each directory lists its (uniquely named) entries — the
sorting of file names and directory names at every level makes two runs
over an unchanged tree byte-identical. -/
theorem C7_crawler :
    (∀ (r p : List String) (es : List FSEntry),
      p ∈ crawl r es ↔ ∃ q, p = r ++ q ∧ HasLog es q)
    ∧ (∀ (r : List String) (es1 es2 : List FSEntry),
      ShuffledL es1 es2 → NdTop es1 → crawl r es1 = crawl r es2) := by
  constructor
  · intro r p es
    exact crawl_mem_aux (sizeOf es) es (le_refl _) r p
  · intro r es1 es2 h hnd
    exact crawl_shuffled_aux (sizeOf es2) es2 (le_refl _) es1 r h hnd

theorem C7_witness : crawl ["r"] siblingTreeRev = crawl ["r"] siblingTree :=
  C7_crawler.2 ["r"] siblingTreeRev siblingTree
    (ShuffledL.mk
      (List.Perm.swap (FSEntry.dir "A" [FSEntry.file "isce.log" goodText])
        (FSEntry.dir "B" [FSEntry.file "isce.log" goodText2]) [])
      (ShuffledPW.cons
        (ShuffledE.dir "A" (ShuffledL.mk (List.Perm.refl _)
          (ShuffledPW.cons (ShuffledE.file "isce.log" goodText) ShuffledPW.nil)))
        (ShuffledPW.cons
          (ShuffledE.dir "B" (ShuffledL.mk (List.Perm.refl _)
            (ShuffledPW.cons (ShuffledE.file "isce.log" goodText2) ShuffledPW.nil)))
          ShuffledPW.nil)))
    ⟨by decide,
      NdAll.cons (NdE.dir (by decide) (NdAll.cons NdE.file NdAll.nil))
        (NdAll.cons (NdE.dir (by decide) (NdAll.cons NdE.file NdAll.nil)) NdAll.nil)⟩

end ParseLogs
